import Mathlib

/-!
Verification development for the joy2mulka-web start-list scheduling engine
(`src/utils/startlistGenerator.ts`).  The TypeScript source is shallowly
embedded: JavaScript numbers holding 32-bit patterns become `Nat` with
explicit `% 2^32`, JS arrays become `List`, `Map` becomes an association
list preserving insertion order, and a JS `TypeError` thrown by an
out-of-bounds element access is modelled by `Option` (`none` = the call
throws).  String operations are modelled on `List Char`; `toLowerCase` is
modelled on the ASCII range (all alphabets exercised here are ASCII or
Japanese, which `toLowerCase` leaves unchanged), and `parseInt` is modelled
for its radix-10 digit-prefix behaviour, which covers every string the
generator feeds it.
-/

/-- `Entry` record from `types.ts`: one competitor registration. -/
structure Entry where
  id : String
  className : String
  name1 : String
  name2 : String
  affiliation : String
  affiliations : List String
  cardNumber : String
  joaNumber : String
  isRental : Bool
  gender : String
  rowNumber : Nat
  participantNumber : Nat
  ranking : Option Nat
deriving DecidableEq, Repr

/-- `Course` record from `types.ts`: one schedulable bracket. -/
structure Course where
  id : String
  name : String
  originalClass : String
  splitNumber : Option Nat
  entries : List Entry
  assigned : Bool
  startAreaId : Option String
  laneId : Option String
  order : Option Nat
deriving DecidableEq, Repr

/-- `Lane` record from `types.ts`. -/
structure Lane where
  id : String
  name : String
  startTime : String
  startNumber : Nat
  interval : Nat
  interCourseGap : Nat
  affiliationSplit : Bool
  courseIds : List String
deriving DecidableEq, Repr

/-- `StartArea` record from `types.ts`. -/
structure StartArea where
  id : String
  name : String
  lanes : List Lane
deriving DecidableEq, Repr

/-- `RaceType` from `types.ts`. -/
inductive RaceType where
  | forest
  | sprint
deriving DecidableEq, Repr

/-- `sameTimeClubScope` values from `types.ts`. -/
inductive SameTimeScope where
  | all
  | selected
deriving DecidableEq, Repr

/-- `allowSameLaneClubDuplicates` values from `types.ts`. -/
inductive LanePolicy where
  | allow
  | disallowAll
  | disallowSelected
deriving DecidableEq, Repr

/-- `Constraints` record from `types.ts`. -/
structure Constraints where
  isRankingEvent : Bool
  avoidSameClubConsecutive : Bool
  maxShuffleAttempts : Nat
  useRankingForSplit : List (String × Bool)
  raceType : RaceType
  allowSameTimeClubDuplicates : Bool
  sameTimeClubScope : SameTimeScope
  sameTimeClubSelectedAreas : List String
  allowSameLaneClubDuplicates : LanePolicy
  sameLaneClubSelectedCourses : List String
  sameLaneClubTimeWindow : Nat
deriving DecidableEq, Repr

/-- `StartListEntry` record from `types.ts`: one row of the final schedule. -/
structure StartListEntry where
  className : String
  startNumber : Nat
  name1 : String
  name2 : String
  affiliation : String
  startTime : String
  cardNumber : String
  cardNote : String
  joaNumber : String
  isRental : Bool
  lane : String
  startArea : String
deriving DecidableEq, Repr

/-- Conflict kinds from `types.ts`. -/
inductive ConflictType where
  | sameTimeClub
  | sameLaneClub
deriving DecidableEq, Repr

/-- `Conflict` record from `types.ts`. -/
structure Conflict where
  type : ConflictType
  entries : List StartListEntry
  startTime : String
  lane : Option String
  startArea : Option String
  message : String
deriving DecidableEq, Repr

/-- 2^32, the modulus of all JS 32-bit bitwise arithmetic. -/
def pow32 : Nat := 4294967296

/-- One step of the mulberry32 PRNG from `createRng`: takes the closure's
`seed` state, returns the 32-bit output (the numerator of the returned
fraction `u / 2^32`) together with the updated state. -/
def mulberry32Next (s : Nat) : Nat × Nat :=
  let s1 := (s + 0x6D2B79F5) % pow32
  let t1 := ((s1 ^^^ (s1 >>> 15)) * (s1 ||| 1)) % pow32
  let t2 := t1 ^^^ ((t1 + ((t1 ^^^ (t1 >>> 7)) * (t1 ||| 61)) % pow32) % pow32)
  (t2 ^^^ (t2 >>> 14), s1)

/-- JS destructuring swap `[a[i], a[j]] = [a[j], a[i]]`; out-of-range
indices leave the list unchanged (never exercised by the generator). -/
def listSwap {α : Type} (l : List α) (i j : Nat) : List α :=
  match l[i]?, l[j]? with
  | some a, some b => (l.set i b).set j a
  | _, _ => l

/-- The Fisher-Yates loop of `shuffleArray`, counting the index `i` down;
`Math.floor(rng() * (i + 1))` is computed exactly as `u * (i+1) / 2^32`
(the float product is exact for the list lengths the generator handles). -/
def shuffleArrayAux {α : Type} : Nat → Nat → List α → List α × Nat
  | 0, st, arr => (arr, st)
  | c + 1, st, arr =>
    let p := mulberry32Next st
    let j := p.1 * (c + 2) / pow32
    shuffleArrayAux c p.2 (listSwap arr (c + 1) j)

/-- `shuffleArray` from the source: seeded Fisher-Yates shuffle.  The RNG
closure state is threaded explicitly: `st` is the state on entry and the
second component of the result is the state after the shuffle. -/
def shuffleArray {α : Type} (arr : List α) (st : Nat) : List α × Nat :=
  shuffleArrayAux (arr.length - 1) st arr

/-- Stable insertion step: place `a` before the first element `b` with
`le a b`.  Since `a` precedes the rest of the list in the original order,
this is exactly stable-sort placement. -/
def orderedInsertBy {α : Type} (le : α → α → Bool) (a : α) : List α → List α
  | [] => [a]
  | b :: t => if le a b then a :: b :: t else b :: orderedInsertBy le a t

/-- JS `Array.prototype.sort(cmp)`: since ES2019 a stable comparator sort.
For the total comparators this code uses the stable result is unique, so a
structural stable insertion sort models it exactly (and, unlike mergesort,
reduces inside the kernel). -/
def stableSortBy {α : Type} (le : α → α → Bool) : List α → List α
  | [] => []
  | a :: t => orderedInsertBy le a (stableSortBy le t)

/-- The character class of JS `\s` / `String.prototype.trim`. -/
def isJsWhitespace (c : Char) : Bool :=
  c = ' ' || c = '\t' || c = '\n' || c = '\r' ||
  c.val = 0x0b || c.val = 0x0c || c.val = 0xa0 || c.val = 0x1680 ||
  (0x2000 ≤ c.val && c.val ≤ 0x200a) || c.val = 0x2028 || c.val = 0x2029 ||
  c.val = 0x202f || c.val = 0x205f || c.val = 0x3000 || c.val = 0xfeff

/-- JS `String.prototype.trim`. -/
def jsTrim (s : String) : String :=
  ⟨((s.data.dropWhile isJsWhitespace).reverse.dropWhile isJsWhitespace).reverse⟩

/-- JS `toLowerCase` on the ASCII range (identity on all other characters
appearing in this code base's data, e.g. Japanese). -/
def jsToLowerChar (c : Char) : Char :=
  if 'A' ≤ c ∧ c ≤ 'Z' then Char.ofNat (c.toNat + 32) else c

/-- JS `String.prototype.toLowerCase` (ASCII model). -/
def jsToLower (s : String) : String :=
  ⟨s.data.map jsToLowerChar⟩

/-- JS `str.replace(/\d+$/, '')`: remove a trailing run of ASCII digits. -/
def stripTrailingDigits (s : String) : String :=
  ⟨(s.data.reverse.dropWhile Char.isDigit).reverse⟩

/-- The separators of the affiliation-splitting regex `/[/,、]/`. -/
def affSeparators : List Char := ['/', ',', '、']

/-- JS `str.split(/[/,、]/)` (empty pieces are kept, as in JS). -/
def splitAffString (s : String) : List String :=
  (s.data.splitOnP (fun c => affSeparators.contains c)).map (fun cs => ⟨cs⟩)

/-- The per-token normalization `aff.replace(/\d+$/, '').trim().toLowerCase()`
shared verbatim by `getAffiliationsForCheck` and `parseAffiliationsFromEntry`. -/
def normalizeAffToken (s : String) : String :=
  jsToLower (jsTrim (stripTrailingDigits s))

/-- `normalizeName` from the source: remove all whitespace (the regex
`/[\s　]+/g`) and lower-case. -/
def normalizeName (s : String) : String :=
  jsToLower ⟨s.data.filter (fun c => !(isJsWhitespace c))⟩

/-- Lexicographic code-unit comparison, modelling the order that
`a.startTime.localeCompare(b.startTime)` induces on the generator's
zero-padded ASCII time strings (every locale collates plain digit/colon
strings in code-unit order). -/
def charListLe : List Char → List Char → Bool
  | [], _ => true
  | _ :: _, [] => false
  | c1 :: t1, c2 :: t2 =>
    if c1.val < c2.val then true
    else if c2.val < c1.val then false
    else charListLe t1 t2

/-- String comparison via `charListLe`. -/
def jsStringLe (s1 s2 : String) : Bool :=
  charListLe s1.data s2.data

/-- JS `parseInt(p) || 0` restricted to its radix-10 digit-prefix behaviour
(a string not starting with a digit parses to `NaN`, which `|| 0` turns
into `0`). -/
def jsParseIntOr0 (s : String) : Nat :=
  let ds := s.data.takeWhile Char.isDigit
  ds.foldl (fun n c => n * 10 + (c.toNat - 48)) 0

/-- `parseTimeToMinutes` from the source: split on `/[:;]/` and return
`h * 60 + m`. -/
def parseTimeToMinutes (s : String) : Nat :=
  let parts := (s.data.splitOnP (fun c => c = ':' || c = ';')).map
    (fun cs => jsParseIntOr0 ⟨cs⟩)
  parts.getD 0 0 * 60 + parts.getD 1 0

/-- JS `str.padStart(2, '0')`. -/
def jsPadStart2Zero (s : String) : String :=
  if 2 ≤ s.length then s else ⟨List.replicate (2 - s.length) '0' ++ s.data⟩

/-- `formatTime` from the source: minutes since midnight to `HH:MM:00`. -/
def formatTime (minutes : Nat) : String :=
  jsPadStart2Zero (toString (minutes / 60)) ++ ":" ++
    jsPadStart2Zero (toString (minutes % 60)) ++ ":00"

/-- `getAffiliationsForCheck` from the source: the affiliation token list
the shuffler compares; falls back on the raw `affiliation` when no parsed
`affiliations` are present. -/
def getAffiliationsForCheck (e : Entry) : List String :=
  let affiliations :=
    if e.affiliations.isEmpty then
      (if e.affiliation ≠ "" ∧ e.affiliation ≠ "-" then [e.affiliation] else [])
    else e.affiliations
  (affiliations.map normalizeAffToken).filter (fun a => a ≠ "")

/-- `hasAffiliationOverlap` from the source. -/
def hasAffiliationOverlap (e1 e2 : Entry) : Bool :=
  let affs1 := getAffiliationsForCheck e1
  let affs2 := getAffiliationsForCheck e2
  if affs1.isEmpty || affs2.isEmpty then false
  else affs1.any (fun a => affs2.contains a)

/-- `countConsecutiveConflicts` from the source. -/
def countConsecutiveConflicts : List Entry → Nat
  | a :: b :: t => (if hasAffiliationOverlap a b then 1 else 0) + countConsecutiveConflicts (b :: t)
  | _ => 0

/-- The `while (remaining.length > 0)` loop of `greedyOrderByAffiliation`:
`last` is the most recently placed entry; scan `remaining` left-to-right for
the first entry that does not overlap it, else take the head.  Each loop
iteration removes exactly one element, so the list length is the loop
variant; it is passed as structural fuel (always called with
`fuel = remaining.length`). -/
def greedyInsertLoop : Nat → Entry → List Entry → List Entry
  | 0, _, _ => []
  | _ + 1, _, [] => []
  | fuel + 1, last, h :: t =>
    let i := (h :: t).findIdx (fun e => !(hasAffiliationOverlap last e))
    if hi : i < (h :: t).length then
      (h :: t).get ⟨i, hi⟩ ::
        greedyInsertLoop fuel ((h :: t).get ⟨i, hi⟩) ((h :: t).eraseIdx i)
    else
      h :: greedyInsertLoop fuel h t

/-- `greedyOrderByAffiliation` from the source. -/
def greedyOrderByAffiliation (entries : List Entry) : List Entry :=
  if entries.length ≤ 1 then entries
  else
    match entries with
    | [] => []
    | h :: t => h :: greedyInsertLoop t.length h t

/-- The attempt loop of `shuffleAvoidingConsecutiveAffiliations`: remaining
attempts, RNG state, best result so far and its conflict count. -/
def savAux (entries : List Entry) : Nat → Nat → List Entry → Nat → List Entry
  | 0, _, best, _ => best
  | a + 1, st, best, bestConf =>
    let p := shuffleArray entries st
    let result := greedyOrderByAffiliation p.1
    let conflicts := countConsecutiveConflicts result
    let best1 := if conflicts < bestConf then result else best
    let bestConf1 := if conflicts < bestConf then conflicts else bestConf
    if conflicts = 0 then best1 else savAux entries a p.2 best1 bestConf1

/-- `shuffleAvoidingConsecutiveAffiliations` from the source. -/
def shuffleAvoidingConsecutiveAffiliations
    (entries : List Entry) (maxAttempts : Nat) (seed : Nat) : List Entry :=
  if entries.length ≤ 1 then entries
  else savAux entries maxAttempts seed entries (countConsecutiveConflicts entries)

/-- `lookupEntryRank` from the source; the `Map<string, number>` becomes an
association list in insertion order. -/
def lookupEntryRank (e : Entry) (rankings : List (String × Nat)) : Option Nat :=
  match rankings.lookup e.name1 with
  | some r => some r
  | none =>
    let n1 := normalizeName e.name1
    (rankings.find? (fun p => normalizeName p.1 == n1)).map (fun p => p.2)

/-- `groups[i].push(e)` with the JS faulting behaviour: `none` when the
index is out of range (`undefined.push` throws a `TypeError`). -/
def pushAtChecked (gs : List (List Entry)) (i : Nat) (e : Entry) :
    Option (List (List Entry)) :=
  if i < gs.length then some (gs.set i (gs.getD i [] ++ [e])) else none

/-- The `for (let i = 1; ...)` scan of `splitClassByRanking` that tracks the
smallest group: returns (best index, best size). -/
def findMinIdxAux : List Nat → Nat → Nat → Nat → Nat × Nat
  | [], _, bestIdx, bestVal => (bestIdx, bestVal)
  | v :: t, i, bestIdx, bestVal =>
    if v < bestVal then findMinIdxAux t (i + 1) i v
    else findMinIdxAux t (i + 1) bestIdx bestVal

/-- Index of the smallest group (first occurrence); `none` models the
`TypeError` of reading `groups[0].length` on an empty `groups` array. -/
def minIdxOfGroups (gs : List (List Entry)) : Option Nat :=
  match gs with
  | [] => none
  | g0 :: rest => some (findMinIdxAux (rest.map (fun g => g.length)) 1 0 g0.length).1

/-- The ranked-distribution loop of `splitClassByRanking`: the `i`-th sorted
ranked entry goes to group `i % splitCount` (`i % 0` is JS `NaN`, whose
array access throws, modelled by `pushAtChecked` returning `none`). -/
def distributeRankedAux (splitCount : Nat) :
    Nat → List Entry → List (List Entry) → Option (List (List Entry))
  | _, [], gs => some gs
  | i, e :: t, gs =>
    match pushAtChecked gs (i % splitCount) e with
    | some gs1 => distributeRankedAux splitCount (i + 1) t gs1
    | none => none

/-- The unranked-balancing loop of `splitClassByRanking`: each entry goes to
the currently smallest group. -/
def distributeBalanced : List Entry → List (List Entry) → Option (List (List Entry))
  | [], gs => some gs
  | e :: t, gs =>
    match minIdxOfGroups gs with
    | none => none
    | some mi =>
      match pushAtChecked gs mi e with
      | some gs1 => distributeBalanced t gs1
      | none => none

/-- `splitClassByRanking` from the source.  `none` models the `TypeError`
the JS function throws when `splitCount = 0` meets a nonempty entry list. -/
def splitClassByRanking (entries : List Entry) (splitCount : Nat)
    (rankings : List (String × Nat)) (seed : Nat) : Option (List (List Entry)) :=
  let ranked := entries.filterMap
    (fun e => (lookupEntryRank e rankings).map (fun r => (r, e)))
  let rankedSorted := stableSortBy (fun a b => decide (a.1 ≤ b.1)) ranked
  let unranked := entries.filter (fun e => (lookupEntryRank e rankings).isNone)
  let groups0 : List (List Entry) := List.replicate splitCount []
  match distributeRankedAux splitCount 0 (rankedSorted.map (fun p => p.2)) groups0 with
  | none => none
  | some gs1 =>
    let shuffledUnranked := (shuffleArray unranked seed).1
    distributeBalanced shuffledUnranked gs1

/-- The `startList.push({...})` record constructed inside
`generateStartListForLane`, factored out. -/
def toStartListRow (course : Course) (lane : Lane) (startArea : StartArea)
    (e : Entry) (startNumber : Nat) (startTimeMinutes : Nat) : StartListEntry :=
  { className := course.name
    startNumber := startNumber
    name1 := e.name1
    name2 := e.name2
    affiliation := if e.affiliation = "" then "-" else e.affiliation
    startTime := formatTime startTimeMinutes
    cardNumber := e.cardNumber
    cardNote := if e.isRental then "レンタル"
                else (if e.cardNumber = "" then "レンタル" else "my card")
    joaNumber := e.joaNumber
    isRental := e.isRental || decide (e.cardNumber = "")
    lane := lane.name
    startArea := startArea.name }

/-- The per-course ordering step of `generateStartListForLane`: the bounded
conflict-avoiding search (with the hard-coded attempt bound 1000) when
`affiliationSplit` is on, a plain seeded shuffle with a fresh RNG otherwise. -/
def orderCourseEntries (affiliationSplit : Bool) (entries : List Entry)
    (seed : Nat) : List Entry :=
  if affiliationSplit then shuffleAvoidingConsecutiveAffiliations entries 1000 seed
  else (shuffleArray entries seed).1

/-- The body of the `for (const course of sortedCourses)` loop of
`generateStartListForLane`; the accumulator is
(rows so far, currentTimeMinutes, currentNumber). -/
def laneCourseStep (lane : Lane) (startArea : StartArea) (affiliationSplit : Bool)
    (seed : Nat) (acc : List StartListEntry × Nat × Nat) (course : Course) :
    List StartListEntry × Nat × Nat :=
  let orderedEntries := orderCourseEntries affiliationSplit course.entries seed
  let rows := orderedEntries.enum.map (fun p =>
    toStartListRow course lane startArea p.2 (acc.2.2 + p.1)
      (acc.2.1 + p.1 * lane.interval))
  (acc.1 ++ rows, acc.2.1 + orderedEntries.length * lane.interval,
    acc.2.2 + orderedEntries.length)

/-- `generateStartListForLane` from the source. -/
def generateStartListForLane (courses : List Course) (lane : Lane)
    (startArea : StartArea) (affiliationSplit : Bool) (seed : Nat) :
    List StartListEntry :=
  let sortedCourses := stableSortBy
    (fun a b => decide (a.order.getD 0 ≤ b.order.getD 0)) courses
  (sortedCourses.foldl (laneCourseStep lane startArea affiliationSplit seed)
    ([], parseTimeToMinutes lane.startTime, lane.startNumber)).1

/-- The entry population of one found course inside `generateStartList`
(the split branch calls `splitClassByRanking` with `new Map()` = `[]`). -/
def populatedCourseEntries (courses : List Course) (entries : List Entry)
    (seed : Nat) (course : Course) : Option (List Entry) :=
  if course.splitNumber.getD 0 ≠ 0 then
    let classEntries := entries.filter (fun e => e.className == course.originalClass)
    let splitCount :=
      (courses.filter (fun c => c.originalClass == course.originalClass)).length
    match splitClassByRanking classEntries splitCount [] seed with
    | none => none
    | some groups => some (groups.getD (course.splitNumber.getD 0 - 1) [])
  else
    some (entries.filter (fun e => e.className == course.originalClass))

/-- The `populatedCourses.push({...course, ...})` record of
`generateStartList`. -/
def populateCourse (courses : List Course) (entries : List Entry) (seed : Nat)
    (area : StartArea) (lane : Lane) (course : Course) : Option Course :=
  (populatedCourseEntries courses entries seed course).map (fun courseEntries =>
    { course with
        entries := courseEntries
        startAreaId := some area.id
        laneId := some lane.id })

/-- The `for (const courseId of assignedCourseIds)` loop of
`generateStartList`; an id with no matching course is skipped (`continue`). -/
def populateLane (courses : List Course) (entries : List Entry) (seed : Nat)
    (area : StartArea) (lane : Lane) (acc : List Course) : Option (List Course) :=
  lane.courseIds.foldlM (fun acc2 courseId =>
    match courses.find? (fun c => c.id == courseId) with
    | none => some acc2
    | some course =>
      (populateCourse courses entries seed area lane course).map
        (fun pc => acc2 ++ [pc])) acc

/-- The first double loop of `generateStartList` building `populatedCourses`. -/
def populateAll (courses : List Course) (startAreas : List StartArea)
    (entries : List Entry) (seed : Nat) : Option (List Course) :=
  startAreas.foldlM (fun acc area =>
    area.lanes.foldlM (fun acc2 lane =>
      populateLane courses entries seed area lane acc2) acc) []

/-- The flag `lane.affiliationSplit && constraints.avoidSameClubConsecutive`
that `generateStartList` passes to `generateStartListForLane`. -/
def laneOrderingFlag (lane : Lane) (constraints : Constraints) : Bool :=
  lane.affiliationSplit && constraints.avoidSameClubConsecutive

/-- The second double loop of `generateStartList` plus the final sort by
start time; parameterized by the per-lane ordering flag already computed. -/
def emitLanes (populatedCourses : List Course) (startAreas : List StartArea)
    (flagOf : Lane → Bool) (seed : Nat) : List StartListEntry :=
  let startList := startAreas.foldl (fun acc area =>
    area.lanes.foldl (fun acc2 lane =>
      let laneCourses := populatedCourses.filter (fun c =>
        c.laneId == some lane.id && c.startAreaId == some area.id)
      if laneCourses.isEmpty then acc2
      else acc2 ++ generateStartListForLane laneCourses lane area (flagOf lane) seed)
      acc) []
  stableSortBy (fun a b => jsStringLe a.startTime b.startTime) startList

/-- `generateStartList` from the source.  `none` would model a thrown
`TypeError`; it in fact never occurs (see `generateStartList_isSome`). -/
def generateStartList (courses : List Course) (startAreas : List StartArea)
    (entries : List Entry) (constraints : Constraints) (seed : Nat) :
    Option (List StartListEntry) :=
  (populateAll courses startAreas entries seed).map (fun populatedCourses =>
    emitLanes populatedCourses startAreas
      (fun lane => laneOrderingFlag lane constraints) seed)

/-- `generateStartList` as §4.3/§4.4 of the spec describes it when
affiliation separation is globally disabled: every lane's courses are
ordered by the plain seeded shuffle, regardless of the per-lane flag.
(Spec-words comparison definition for the refinement statement of C10.) -/
def generateStartListPlain (courses : List Course) (startAreas : List StartArea)
    (entries : List Entry) (seed : Nat) : Option (List StartListEntry) :=
  (populateAll courses startAreas entries seed).map (fun populatedCourses =>
    emitLanes populatedCourses startAreas (fun _ => false) seed)

/-- `parseAffiliationsFromEntry` from the source: the affiliation token list
the conflict detector compares, re-parsed from the schedule row's raw
`affiliation` string. -/
def parseAffiliationsFromEntry (e : StartListEntry) : List String :=
  if e.affiliation = "" ∨ e.affiliation = "-" then []
  else ((splitAffString e.affiliation).map normalizeAffToken).filter (fun a => a ≠ "")

/-- `map.get(k).push(v)` preceded by `if (!map.has(k)) map.set(k, [])`:
insertion-ordered grouping, as a JS `Map` iterates in insertion order. -/
def upsertGroup (acc : List (String × List StartListEntry)) (k : String)
    (v : StartListEntry) : List (String × List StartListEntry) :=
  if acc.any (fun p => p.1 == k) then
    acc.map (fun p => if p.1 == k then (p.1, p.2 ++ [v]) else p)
  else acc ++ [(k, [v])]

/-- The `byTime` / `byLane` grouping loops of `checkConflicts`. -/
def groupByKey (key : StartListEntry → String) (l : List StartListEntry) :
    List (String × List StartListEntry) :=
  l.foldl (fun acc e => upsertGroup acc (key e) e) []

/-- The same-time-club check of `checkConflicts` for one start-time group. -/
def sameTimeConflictsFor (constraints : Constraints) (time : String)
    (entries : List StartListEntry) : List Conflict :=
  let filteredEntries :=
    if constraints.sameTimeClubScope = SameTimeScope.selected then
      entries.filter (fun e => constraints.sameTimeClubSelectedAreas.contains e.startArea)
    else entries
  let affiliationGroups := filteredEntries.foldl (fun acc e =>
    (parseAffiliationsFromEntry e).foldl (fun acc2 aff => upsertGroup acc2 aff e) acc) []
  affiliationGroups.filterMap (fun p =>
    if 1 < p.2.length then
      some { type := ConflictType.sameTimeClub
             entries := p.2
             startTime := time
             lane := none
             startArea := none
             message := "同じ時刻 (" ++ time ++ ") に同じ所属 (" ++ p.1 ++
               ") の選手が複数います" }
    else none)

/-- The inner `for (let j = i + 1; ...)` loop of the same-lane check,
including the early `break` once the pair exceeds the time window and the
duplicate-pair guard against the conflicts accumulated so far. -/
def sameLaneInner (timeWindow : Nat) (entry1 : StartListEntry) (time1 : Nat) :
    List StartListEntry → List Conflict → List Conflict
  | [], conflicts => conflicts
  | entry2 :: rest, conflicts =>
    let time2 := parseTimeToMinutes (entry2.startTime.take 5)
    if timeWindow < time2 - time1 then conflicts
    else
      let affs1 := parseAffiliationsFromEntry entry1
      let affs2 := parseAffiliationsFromEntry entry2
      let commonAffs := affs1.filter (fun a => affs2.contains a)
      let conflicts1 :=
        if commonAffs ≠ [] then
          if conflicts.any (fun c => c.type == ConflictType.sameLaneClub &&
              c.lane == some entry1.lane && c.entries.contains entry1 &&
              c.entries.contains entry2) then conflicts
          else conflicts ++
            [{ type := ConflictType.sameLaneClub
               entries := [entry1, entry2]
               startTime := entry1.startTime
               lane := some entry1.lane
               startArea := some entry1.startArea
               message := "同じレーン (" ++ entry1.lane ++ ") で " ++
                 toString timeWindow ++ "分以内に同じ所属 (" ++
                 String.intercalate ", " commonAffs ++ ") の選手がいます" }]
        else conflicts
      sameLaneInner timeWindow entry1 time1 rest conflicts1

/-- The outer `for (let i = 0; ...)` loop of the same-lane check. -/
def sameLaneOuter (timeWindow : Nat) :
    List StartListEntry → List Conflict → List Conflict
  | [], conflicts => conflicts
  | entry1 :: rest, conflicts =>
    let time1 := parseTimeToMinutes (entry1.startTime.take 5)
    sameLaneOuter timeWindow rest (sameLaneInner timeWindow entry1 time1 rest conflicts)

/-- The whole same-lane-club block of `checkConflicts`. -/
def sameLaneConflictsAll (constraints : Constraints)
    (startList : List StartListEntry) (conflicts : List Conflict) : List Conflict :=
  let byLane := startList.foldl
    (fun acc e => upsertGroup acc (e.startArea ++ "-" ++ e.lane) e) []
  byLane.foldl (fun acc p =>
    let filteredEntries :=
      if constraints.allowSameLaneClubDuplicates = LanePolicy.disallowSelected then
        p.2.filter (fun e => constraints.sameLaneClubSelectedCourses.contains e.className)
      else p.2
    let sorted := stableSortBy (fun a b => jsStringLe a.startTime b.startTime) filteredEntries
    sameLaneOuter constraints.sameLaneClubTimeWindow sorted acc) conflicts

/-- `checkConflicts` from the source. -/
def checkConflicts (startList : List StartListEntry) (constraints : Constraints) :
    List Conflict :=
  let byTime := groupByKey (fun e => e.startTime) startList
  let conflicts1 :=
    if !constraints.allowSameTimeClubDuplicates then
      byTime.foldl (fun acc p => acc ++ sameTimeConflictsFor constraints p.1 p.2) []
    else []
  if constraints.allowSameLaneClubDuplicates ≠ LanePolicy.allow then
    sameLaneConflictsAll constraints startList conflicts1
  else conflicts1

/-- The inline `{ name, shouldSplit, splitCount }` class descriptor taken by
`createCourses`. -/
structure ClassSplitSpec where
  name : String
  shouldSplit : Bool
  splitCount : Nat
deriving DecidableEq, Repr

/-- The body of the `for (const classInfo of classes)` loop of
`createCourses`; `courseId` is the running id counter. -/
def createCoursesForClass (entries : List Entry) (seed : Nat) (courseId : Nat)
    (classInfo : ClassSplitSpec) : Option (List Course × Nat) :=
  let classEntries := entries.filter (fun e => e.className == classInfo.name)
  if classInfo.shouldSplit && decide (1 < classInfo.splitCount) then
    match splitClassByRanking classEntries classInfo.splitCount [] seed with
    | none => none
    | some groups =>
      some (groups.enum.map (fun p =>
        { id := "course-" ++ toString (courseId + p.1)
          name := classInfo.name ++ toString (p.1 + 1)
          originalClass := classInfo.name
          splitNumber := some (p.1 + 1)
          entries := p.2
          assigned := false
          startAreaId := none
          laneId := none
          order := none }), courseId + groups.length)
  else
    some ([{ id := "course-" ++ toString courseId
             name := classInfo.name
             originalClass := classInfo.name
             splitNumber := none
             entries := classEntries
             assigned := false
             startAreaId := none
             laneId := none
             order := none }], courseId + 1)

/-- `createCourses` from the source (`emptyRankings = new Map()` becomes
`[]`); `none` models a thrown `TypeError`, which the `splitCount > 1` guard
in fact rules out. -/
def createCourses (entries : List Entry) (classes : List ClassSplitSpec)
    (seed : Nat) : Option (List Course) :=
  (classes.foldlM (fun acc classInfo =>
    (createCoursesForClass entries seed acc.2 classInfo).map
      (fun p => (acc.1 ++ p.1, p.2))) (([] : List Course), 0)).map (fun p => p.1)

/-! ### Permutation facts about the Fisher-Yates shuffle -/

theorem cons_getElem_set_perm {α : Type} :
    ∀ (t : List α) (k : Nat) (x : α) (hk : k < t.length),
      (t[k] :: t.set k x).Perm (x :: t)
  | y :: t2, 0, x, _ => by
    simpa using List.Perm.swap x y t2
  | y :: t2, k + 1, x, hk => by
    have hk2 : k < t2.length := by simpa using hk
    have step1 : ((y :: t2)[k + 1] :: (y :: t2).set (k + 1) x) =
        t2[k] :: y :: t2.set k x := by simp
    rw [step1]
    exact ((List.Perm.swap _ _ _).trans
      ((cons_getElem_set_perm t2 k x hk2).cons y)).trans (List.Perm.swap _ _ _)

theorem set_set_swap_perm {α : Type} :
    ∀ (l : List α) (i j : Nat) (hi : i < l.length) (hj : j < l.length),
      ((l.set i l[j]).set j l[i]).Perm l
  | x :: t, 0, 0, _, _ => by simp
  | x :: t, 0, k + 1, hi, hj => by
    have hk : k < t.length := by simpa using hj
    simpa using cons_getElem_set_perm t k x hk
  | x :: t, m + 1, 0, hi, hj => by
    have hm : m < t.length := by simpa using hi
    simpa using cons_getElem_set_perm t m x hm
  | x :: t, m + 1, k + 1, hi, hj => by
    have hm : m < t.length := by simpa using hi
    have hk : k < t.length := by simpa using hj
    simpa using (set_set_swap_perm t m k hm hk).cons x

theorem listSwap_perm {α : Type} (l : List α) (i j : Nat) :
    (listSwap l i j).Perm l := by
  unfold listSwap
  split
  · rename_i a b h1 h2
    obtain ⟨hi, ha⟩ := List.getElem?_eq_some.1 h1
    obtain ⟨hj, hb⟩ := List.getElem?_eq_some.1 h2
    subst ha
    subst hb
    exact set_set_swap_perm l i j hi hj
  · exact List.Perm.refl _

theorem shuffleArrayAux_succ {α : Type} (c st : Nat) (arr : List α) :
    shuffleArrayAux (c + 1) st arr =
      shuffleArrayAux c (mulberry32Next st).2
        (listSwap arr (c + 1) ((mulberry32Next st).1 * (c + 2) / pow32)) := rfl

theorem shuffleArrayAux_fst_perm {α : Type} :
    ∀ (c st : Nat) (arr : List α), ((shuffleArrayAux c st arr).1).Perm arr := by
  intro c
  induction c with
  | zero => intro st arr; exact List.Perm.refl _
  | succ c IH =>
    intro st arr
    rw [shuffleArrayAux_succ]
    exact (IH _ _).trans (listSwap_perm arr (c + 1) _)

theorem shuffleArray_fst_perm {α : Type} (arr : List α) (st : Nat) :
    ((shuffleArray arr st).1).Perm arr :=
  shuffleArrayAux_fst_perm _ _ _

theorem orderedInsertBy_nil {α : Type} (le : α → α → Bool) (a : α) :
    orderedInsertBy le a [] = [a] := rfl

theorem orderedInsertBy_cons {α : Type} (le : α → α → Bool) (a b : α)
    (t : List α) :
    orderedInsertBy le a (b :: t) =
      if le a b then a :: b :: t else b :: orderedInsertBy le a t := rfl

theorem stableSortBy_nil {α : Type} (le : α → α → Bool) :
    stableSortBy le [] = [] := rfl

theorem stableSortBy_cons {α : Type} (le : α → α → Bool) (a : α) (t : List α) :
    stableSortBy le (a :: t) = orderedInsertBy le a (stableSortBy le t) := rfl

theorem orderedInsertBy_perm {α : Type} (le : α → α → Bool) (a : α) :
    ∀ l : List α, (orderedInsertBy le a l).Perm (a :: l)
  | [] => List.Perm.refl _
  | b :: t => by
    rw [orderedInsertBy_cons]
    by_cases h : le a b
    · rw [if_pos h]
    · rw [if_neg h]
      exact ((orderedInsertBy_perm le a t).cons b).trans (List.Perm.swap _ _ _)

theorem stableSortBy_perm {α : Type} (le : α → α → Bool) :
    ∀ l : List α, (stableSortBy le l).Perm l
  | [] => List.Perm.refl _
  | a :: t => by
    rw [stableSortBy_cons]
    exact (orderedInsertBy_perm le a _).trans ((stableSortBy_perm le t).cons a)

/-! ### Group bookkeeping for `splitClassByRanking` -/

/-- The vector of group sizes tracked by the balancing loop. -/
def groupSizes (gs : List (List Entry)) : List Nat :=
  gs.map (fun g => g.length)

theorem getD_set_self {α : Type} (l : List α) (i : Nat) (a d : α)
    (h : i < l.length) : (l.set i a).getD i d = a := by
  rw [List.getD_eq_getElem?_getD, List.getElem?_set_self h, Option.getD_some]

theorem getD_set_ne {α : Type} (l : List α) {i j : Nat} (a d : α)
    (h : i ≠ j) : (l.set i a).getD j d = l.getD j d := by
  rw [List.getD_eq_getElem?_getD, List.getElem?_set_ne h, ← List.getD_eq_getElem?_getD]

theorem groupSizes_getD (gs : List (List Entry)) (i : Nat) :
    (groupSizes gs).getD i 0 = (gs.getD i []).length := by
  rw [List.getD_eq_getElem?_getD, List.getD_eq_getElem?_getD, groupSizes,
    List.getElem?_map]
  cases gs[i]? <;> rfl

theorem groupSizes_length (gs : List (List Entry)) :
    (groupSizes gs).length = gs.length := by
  simp [groupSizes]

theorem flatten_set_push_perm {α : Type} :
    ∀ (gs : List (List α)) (i : Nat) (e : α), i < gs.length →
      ((gs.set i (gs.getD i [] ++ [e])).flatten).Perm (e :: gs.flatten)
  | g :: rest, 0, e, _ => by
    simp only [List.getD_cons_zero, List.set_cons_zero, List.flatten_cons,
      List.append_assoc, List.singleton_append]
    exact List.perm_middle
  | g :: rest, i + 1, e, h => by
    have hi : i < rest.length := by simpa using h
    simp only [List.getD_cons_succ, List.set_cons_succ, List.flatten_cons]
    exact ((flatten_set_push_perm rest i e hi).append_left g).trans List.perm_middle

theorem findMinIdxAux_nil (i b bv : Nat) : findMinIdxAux [] i b bv = (b, bv) := rfl

theorem findMinIdxAux_cons (v : Nat) (t : List Nat) (i b bv : Nat) :
    findMinIdxAux (v :: t) i b bv =
      if v < bv then findMinIdxAux t (i + 1) i v
      else findMinIdxAux t (i + 1) b bv := rfl

theorem findMinIdxAux_spec :
    ∀ (t : List Nat) (i b bv : Nat),
      (findMinIdxAux t i b bv).2 ≤ bv ∧
      (∀ k, k < t.length → (findMinIdxAux t i b bv).2 ≤ t.getD k 0) ∧
      (((findMinIdxAux t i b bv).1 = b ∧ (findMinIdxAux t i b bv).2 = bv) ∨
        (∃ k, k < t.length ∧ (findMinIdxAux t i b bv).1 = i + k ∧
          t.getD k 0 = (findMinIdxAux t i b bv).2)) := by
  intro t
  induction t with
  | nil =>
    intro i b bv
    simp only [findMinIdxAux_nil]
    refine ⟨le_refl _, ?_, Or.inl (by simp)⟩
    intro k hk
    simp at hk
  | cons v t2 IH =>
    intro i b bv
    simp only [findMinIdxAux_cons]
    by_cases hv : v < bv
    · simp only [if_pos hv]
      obtain ⟨h1, h2, h3⟩ := IH (i + 1) i v
      refine ⟨h1.trans (le_of_lt hv), ?_, ?_⟩
      · intro k hk
        cases k with
        | zero => simpa using h1
        | succ k2 => simpa using h2 k2 (by simpa using hk)
      · rcases h3 with ⟨hb, hbv⟩ | ⟨k, hk, hpos, hval⟩
        · refine Or.inr ⟨0, by simp, by rw [hb]; omega, by simpa using hbv.symm⟩
        · refine Or.inr ⟨k + 1, by simpa using hk, by rw [hpos]; omega, by simpa using hval⟩
    · simp only [if_neg hv]
      obtain ⟨h1, h2, h3⟩ := IH (i + 1) b bv
      refine ⟨h1, ?_, ?_⟩
      · intro k hk
        cases k with
        | zero => simpa using h1.trans (Nat.le_of_not_lt hv)
        | succ k2 => simpa using h2 k2 (by simpa using hk)
      · rcases h3 with hleft | ⟨k, hk, hpos, hval⟩
        · exact Or.inl hleft
        · refine Or.inr ⟨k + 1, by simpa using hk, by rw [hpos]; omega, by simpa using hval⟩

theorem groupSizes_cons (g : List Entry) (rest : List (List Entry)) :
    groupSizes (g :: rest) = g.length :: groupSizes rest := rfl

theorem minIdxOfGroups_spec (gs : List (List Entry)) (h : gs ≠ []) :
    ∃ mi, minIdxOfGroups gs = some mi ∧ mi < gs.length ∧
      ∀ j, j < gs.length → (groupSizes gs).getD mi 0 ≤ (groupSizes gs).getD j 0 := by
  match gs, h with
  | g0 :: rest, _ =>
    obtain ⟨h1, h2, h3⟩ := findMinIdxAux_spec (rest.map (fun g => g.length)) 1 0 g0.length
    have hsizes : groupSizes (g0 :: rest) = g0.length :: rest.map (fun g => g.length) := rfl
    have hvalat : (groupSizes (g0 :: rest)).getD
        (findMinIdxAux (rest.map (fun g => g.length)) 1 0 g0.length).1 0 =
        (findMinIdxAux (rest.map (fun g => g.length)) 1 0 g0.length).2 := by
      rcases h3 with ⟨hb, hbv⟩ | ⟨k, hk, hpos, hval⟩
      · rw [hb, hbv, hsizes]; rfl
      · rw [hpos, hsizes]
        have : 1 + k = k + 1 := by omega
        rw [this, List.getD_cons_succ]
        exact hval
    have hmin : minIdxOfGroups (g0 :: rest) =
        some (findMinIdxAux (rest.map (fun g => g.length)) 1 0 g0.length).1 := rfl
    refine ⟨(findMinIdxAux (rest.map (fun g => g.length)) 1 0 g0.length).1, hmin, ?_, ?_⟩
    · rcases h3 with ⟨hb, _⟩ | ⟨k, hk, hpos, _⟩
      · rw [hb]; simp
      · rw [hpos]
        simp only [List.length_map] at hk
        simp only [List.length_cons]
        omega
    · intro j hj
      rw [hvalat]
      cases j with
      | zero => simpa [hsizes] using h1
      | succ k =>
        rw [hsizes, List.getD_cons_succ]
        exact h2 k (by simpa using hj)

/-- The closed form of the group sizes after the round-robin phase has
distributed `i` entries over `n` groups. -/
def rrSizes (n i j : Nat) : Nat :=
  i / n + (if j < i % n then 1 else 0)

theorem succ_div_mod_eq (i n : Nat) (hn : 0 < n) (h : i % n + 1 = n) :
    (i + 1) / n = i / n + 1 ∧ (i + 1) % n = 0 := by
  have key : n * (i / n) + i % n = i := Nat.div_add_mod i n
  have hrep : i + 1 = n * (i / n + 1) := by
    have : n * (i / n + 1) = n * (i / n) + n := by ring
    omega
  constructor
  · rw [hrep, Nat.mul_div_cancel_left _ hn]
  · rw [hrep, Nat.mul_mod_right]

theorem succ_div_mod_lt (i n : Nat) (hn : 0 < n) (h : i % n + 1 < n) :
    (i + 1) / n = i / n ∧ (i + 1) % n = i % n + 1 := by
  have key : n * (i / n) + i % n = i := Nat.div_add_mod i n
  have hrep : i + 1 = (i % n + 1) + n * (i / n) := by omega
  constructor
  · rw [hrep, Nat.add_mul_div_left _ _ hn, Nat.div_eq_of_lt h]
    omega
  · rw [hrep, Nat.add_mul_mod_self_left, Nat.mod_eq_of_lt h]

theorem pushAtChecked_of_lt (gs : List (List Entry)) (i : Nat) (e : Entry)
    (h : i < gs.length) :
    pushAtChecked gs i e = some (gs.set i (gs.getD i [] ++ [e])) := by
  simp [pushAtChecked, h]

theorem groupSizes_set_push (gs : List (List Entry)) (i : Nat) (e : Entry) :
    groupSizes (gs.set i (gs.getD i [] ++ [e])) =
      (groupSizes gs).set i ((gs.getD i []).length + 1) := by
  simp [groupSizes, List.map_set]

theorem distributeRankedAux_nil (n i : Nat) (gs : List (List Entry)) :
    distributeRankedAux n i [] gs = some gs := rfl

theorem distributeRankedAux_cons (n i : Nat) (e : Entry) (t : List Entry)
    (gs : List (List Entry)) :
    distributeRankedAux n i (e :: t) gs =
      match pushAtChecked gs (i % n) e with
      | some gs1 => distributeRankedAux n (i + 1) t gs1
      | none => none := rfl

theorem rrSizes_succ_self (n i : Nat) (hn : 0 < n) :
    rrSizes n (i + 1) (i % n) = i / n + 1 := by
  have hmod := Nat.mod_lt i hn
  rcases Nat.lt_or_ge (i % n + 1) n with h | h
  · obtain ⟨hd, hm⟩ := succ_div_mod_lt i n hn h
    simp [rrSizes, hd, hm]
  · have heq : i % n + 1 = n := by omega
    obtain ⟨hd, hm⟩ := succ_div_mod_eq i n hn heq
    simp [rrSizes, hd, hm]

theorem rrSizes_succ_other (n i j : Nat) (hn : 0 < n) (hj : j < n)
    (hne : j ≠ i % n) : rrSizes n (i + 1) j = rrSizes n i j := by
  have hmod := Nat.mod_lt i hn
  rcases Nat.lt_or_ge (i % n + 1) n with h | h
  · obtain ⟨hd, hm⟩ := succ_div_mod_lt i n hn h
    simp only [rrSizes, hd, hm]
    split_ifs <;> omega
  · have heq : i % n + 1 = n := by omega
    obtain ⟨hd, hm⟩ := succ_div_mod_eq i n hn heq
    simp only [rrSizes, hd, hm]
    split_ifs <;> omega

theorem distributeRankedAux_spec :
    ∀ (l : List Entry) (i : Nat) (gs : List (List Entry)) (n : Nat),
      0 < n → gs.length = n →
      (∀ j, j < n → (groupSizes gs).getD j 0 = rrSizes n i j) →
      ∃ gs1, distributeRankedAux n i l gs = some gs1 ∧ gs1.length = n ∧
        (∀ j, j < n → (groupSizes gs1).getD j 0 = rrSizes n (i + l.length) j) ∧
        gs1.flatten.Perm (gs.flatten ++ l) := by
  intro l
  induction l with
  | nil =>
    intro i gs n hn hlen hsz
    exact ⟨gs, rfl, hlen, by simpa using hsz, by simp⟩
  | cons e t IH =>
    intro i gs n hn hlen hsz
    have hidx : i % n < gs.length := by rw [hlen]; exact Nat.mod_lt _ hn
    have hidx2 : i % n < (groupSizes gs).length := by
      rw [groupSizes_length]; exact hidx
    have hszlen : (groupSizes gs).length = n := by rw [groupSizes_length, hlen]
    have hpush := pushAtChecked_of_lt gs (i % n) e hidx
    have hlen2 : (gs.set (i % n) (gs.getD (i % n) [] ++ [e])).length = n := by
      rw [List.length_set, hlen]
    have hsz2 : ∀ j, j < n →
        (groupSizes (gs.set (i % n) (gs.getD (i % n) [] ++ [e]))).getD j 0 =
          rrSizes n (i + 1) j := by
      intro j hj
      rw [groupSizes_set_push]
      by_cases hje : j = i % n
      · rw [hje, getD_set_self _ _ _ _ hidx2]
        have hold : (gs.getD (i % n) []).length = rrSizes n i (i % n) := by
          rw [← groupSizes_getD]
          exact hsz (i % n) (Nat.mod_lt _ hn)
        have hval : rrSizes n i (i % n) = i / n := by simp [rrSizes]
        rw [hold, hval, rrSizes_succ_self n i hn]
      · rw [getD_set_ne _ _ _ (fun hc => hje hc.symm), hsz j hj,
          rrSizes_succ_other n i j hn hj hje]
    obtain ⟨gs1, hrec, hl1, hsz1, hperm1⟩ :=
      IH (i + 1) (gs.set (i % n) (gs.getD (i % n) [] ++ [e])) n hn hlen2 hsz2
    refine ⟨gs1, ?_, hl1, ?_, ?_⟩
    · rw [distributeRankedAux_cons, hpush]
      exact hrec
    · intro j hj
      have harith : i + (e :: t).length = (i + 1) + t.length := by
        simp [List.length_cons]; omega
      rw [harith]
      exact hsz1 j hj
    · have hstep := flatten_set_push_perm gs (i % n) e hidx
      refine (hperm1.trans (hstep.append_right t)).trans ?_
      have : (e :: gs.flatten) ++ t = e :: (gs.flatten ++ t) := rfl
      rw [this]
      exact List.perm_middle.symm

/-- "All groups within one of each other": the balance invariant on the
vector of group sizes. -/
def balancedSizes (s : List Nat) : Prop :=
  ∀ i j, i < s.length → j < s.length → s.getD i 0 ≤ s.getD j 0 + 1

theorem rrSizes_balanced (s : List Nat) (n m : Nat) (hlen : s.length = n)
    (h : ∀ j, j < n → s.getD j 0 = rrSizes n m j) : balancedSizes s := by
  intro i j hi hj
  rw [hlen] at hi hj
  rw [h i hi, h j hj]
  simp only [rrSizes]
  split_ifs <;> omega

theorem distributeBalanced_nil (gs : List (List Entry)) :
    distributeBalanced [] gs = some gs := rfl

theorem distributeBalanced_cons (e : Entry) (t : List Entry)
    (gs : List (List Entry)) :
    distributeBalanced (e :: t) gs =
      match minIdxOfGroups gs with
      | none => none
      | some mi =>
        match pushAtChecked gs mi e with
        | some gs1 => distributeBalanced t gs1
        | none => none := rfl

theorem balancedSizes_push (gs : List (List Entry)) (mi : Nat)
    (hmi : mi < gs.length)
    (hmin : ∀ j, j < gs.length →
      (groupSizes gs).getD mi 0 ≤ (groupSizes gs).getD j 0)
    (hbal : balancedSizes (groupSizes gs)) (e : Entry) :
    balancedSizes (groupSizes (gs.set mi (gs.getD mi [] ++ [e]))) := by
  intro i j hi hj
  rw [groupSizes_set_push] at hi hj ⊢
  rw [List.length_set, groupSizes_length] at hi hj
  have hmi2 : mi < (groupSizes gs).length := by rw [groupSizes_length]; exact hmi
  have hval : ((groupSizes gs).set mi ((gs.getD mi []).length + 1)).getD mi 0 =
      (gs.getD mi []).length + 1 := getD_set_self _ _ _ _ hmi2
  have hothers : ∀ k, k ≠ mi →
      ((groupSizes gs).set mi ((gs.getD mi []).length + 1)).getD k 0 =
      (groupSizes gs).getD k 0 := by
    intro k hk
    exact getD_set_ne _ _ _ (fun hc => hk hc.symm)
  have hmival : (groupSizes gs).getD mi 0 = (gs.getD mi []).length :=
    groupSizes_getD gs mi
  by_cases hie : i = mi <;> by_cases hjf : j = mi
  · rw [hie, hjf]; omega
  · rw [hie, hval, hothers j hjf]
    have := hmin j hj
    omega
  · rw [hjf, hval, hothers i hie]
    have := hbal i mi (by rw [groupSizes_length]; exact hi) hmi2
    omega
  · rw [hothers i hie, hothers j hjf]
    exact hbal i j (by rw [groupSizes_length]; exact hi)
      (by rw [groupSizes_length]; exact hj)

theorem distributeBalanced_spec :
    ∀ (l : List Entry) (gs : List (List Entry)) (n : Nat),
      0 < n → gs.length = n → balancedSizes (groupSizes gs) →
      ∃ gs1, distributeBalanced l gs = some gs1 ∧ gs1.length = n ∧
        balancedSizes (groupSizes gs1) ∧ gs1.flatten.Perm (gs.flatten ++ l) := by
  intro l
  induction l with
  | nil =>
    intro gs n hn hlen hbal
    exact ⟨gs, rfl, hlen, hbal, by simp⟩
  | cons e t IH =>
    intro gs n hn hlen hbal
    have hne : gs ≠ [] := by
      intro hc
      rw [hc] at hlen
      simp at hlen
      omega
    obtain ⟨mi, hmi, hmilt, hmin⟩ := minIdxOfGroups_spec gs hne
    have hpush := pushAtChecked_of_lt gs mi e hmilt
    have hlen2 : (gs.set mi (gs.getD mi [] ++ [e])).length = n := by
      rw [List.length_set, hlen]
    have hbal2 := balancedSizes_push gs mi hmilt hmin hbal e
    obtain ⟨gs1, hrec, hl1, hbal1, hperm1⟩ :=
      IH (gs.set mi (gs.getD mi [] ++ [e])) n hn hlen2 hbal2
    refine ⟨gs1, ?_, hl1, hbal1, ?_⟩
    · simp only [distributeBalanced_cons, hmi, hpush]
      exact hrec
    · have hstep := flatten_set_push_perm gs mi e hmilt
      refine (hperm1.trans (hstep.append_right t)).trans ?_
      have hassoc : (e :: gs.flatten) ++ t = e :: (gs.flatten ++ t) := rfl
      rw [hassoc]
      exact List.perm_middle.symm

theorem rankedMapSnd (entries : List Entry) (rankings : List (String × Nat)) :
    ((entries.filterMap
        (fun e => (lookupEntryRank e rankings).map (fun r => (r, e)))).map
      (fun p => p.2)) =
    entries.filter (fun e => (lookupEntryRank e rankings).isSome) := by
  induction entries with
  | nil => rfl
  | cons e t IH =>
    cases h : lookupEntryRank e rankings <;>
      simp [List.filterMap_cons, List.filter_cons, h, IH]

theorem unranked_eq_filter_not (entries : List Entry)
    (rankings : List (String × Nat)) :
    entries.filter (fun e => (lookupEntryRank e rankings).isNone) =
    entries.filter (fun e => !((lookupEntryRank e rankings).isSome)) := by
  apply List.filter_congr
  intro e _
  cases lookupEntryRank e rankings <;> rfl

theorem flatten_replicate_nil {α : Type} :
    ∀ n, (List.replicate n ([] : List α)).flatten = []
  | 0 => rfl
  | n + 1 => by
    simp [List.replicate_succ, flatten_replicate_nil n]

theorem replicate_getD_nil :
    ∀ (n j : Nat), (List.replicate n ([] : List Entry)).getD j [] = []
  | 0, _ => by simp
  | _ + 1, 0 => rfl
  | n + 1, j + 1 => by
    simp only [List.replicate_succ, List.getD_cons_succ]
    exact replicate_getD_nil n j

theorem splitClassByRanking_spec (entries : List Entry) (n : Nat)
    (rankings : List (String × Nat)) (seed : Nat) (hn : 0 < n) :
    ∃ gs, splitClassByRanking entries n rankings seed = some gs ∧
      gs.length = n ∧ gs.flatten.Perm entries ∧ balancedSizes (groupSizes gs) := by
  have hsz0 : ∀ j, j < n →
      (groupSizes (List.replicate n ([] : List Entry))).getD j 0 = rrSizes n 0 j := by
    intro j _
    rw [groupSizes_getD, replicate_getD_nil]
    simp [rrSizes]
  obtain ⟨gs1, h1, hlen1, hsz1, hperm1⟩ :=
    distributeRankedAux_spec
      ((stableSortBy (fun (a b : Nat × Entry) => decide (a.1 ≤ b.1))
        (entries.filterMap
          (fun e => (lookupEntryRank e rankings).map (fun r => (r, e))))).map
        (fun p => p.2))
      0 (List.replicate n []) n hn (by simp) hsz0
  have hbal1 : balancedSizes (groupSizes gs1) :=
    rrSizes_balanced _ n _ (by rw [groupSizes_length, hlen1]) hsz1
  obtain ⟨gs2, h2, hlen2, hbal2, hperm2⟩ :=
    distributeBalanced_spec
      ((shuffleArray
        (entries.filter (fun e => (lookupEntryRank e rankings).isNone)) seed).1)
      gs1 n hn hlen1 hbal1
  refine ⟨gs2, ?_, hlen2, ?_, hbal2⟩
  · simp only [splitClassByRanking, h1]
    exact h2
  · have hperm1' : gs1.flatten.Perm
        ((stableSortBy (fun (a b : Nat × Entry) => decide (a.1 ≤ b.1))
          (entries.filterMap
            (fun e => (lookupEntryRank e rankings).map (fun r => (r, e))))).map
          (fun p => p.2)) := by
      have := hperm1
      rw [flatten_replicate_nil, List.nil_append] at this
      exact this
    have hsortperm :
        ((stableSortBy (fun (a b : Nat × Entry) => decide (a.1 ≤ b.1))
          (entries.filterMap
            (fun e => (lookupEntryRank e rankings).map (fun r => (r, e))))).map
          (fun p => p.2)).Perm
        (entries.filter (fun e => (lookupEntryRank e rankings).isSome)) := by
      rw [← rankedMapSnd entries rankings]
      exact (stableSortBy_perm _ _).map _
    have hshufperm :
        ((shuffleArray
          (entries.filter (fun e => (lookupEntryRank e rankings).isNone)) seed).1).Perm
        (entries.filter (fun e => !((lookupEntryRank e rankings).isSome))) := by
      rw [← unranked_eq_filter_not]
      exact shuffleArray_fst_perm _ _
    refine hperm2.trans ?_
    refine (List.Perm.append (hperm1'.trans hsortperm) hshufperm).trans ?_
    exact List.filter_append_perm _ entries

theorem shuffleArrayAux_zero {α : Type} (st : Nat) (arr : List α) :
    shuffleArrayAux 0 st arr = (arr, st) := rfl

theorem splitClassByRanking_nil (n : Nat) (rankings : List (String × Nat))
    (seed : Nat) :
    splitClassByRanking [] n rankings seed = some (List.replicate n []) := by
  simp only [splitClassByRanking, List.filterMap_nil, stableSortBy_nil,
    List.map_nil, distributeRankedAux_nil, List.filter_nil, shuffleArray,
    List.length_nil, Nat.zero_sub, shuffleArrayAux_zero, distributeBalanced_nil]

theorem splitClassByRanking_isSome (entries : List Entry) (n : Nat)
    (rankings : List (String × Nat)) (seed : Nat) (hn : 0 < n) :
    (splitClassByRanking entries n rankings seed).isSome = true := by
  obtain ⟨gs, hgs, -, -, -⟩ := splitClassByRanking_spec entries n rankings seed hn
  rw [hgs]
  rfl

theorem splitClassByRanking_zero_of_ne_nil (entries : List Entry)
    (rankings : List (String × Nat)) (seed : Nat) (h : entries ≠ []) :
    splitClassByRanking entries 0 rankings seed = none := by
  simp only [splitClassByRanking]
  cases hL : ((stableSortBy (fun (a b : Nat × Entry) => decide (a.1 ≤ b.1))
      (entries.filterMap
        (fun e => (lookupEntryRank e rankings).map (fun r => (r, e))))).map
    (fun p => p.2)) with
  | cons e t =>
    have hpush : pushAtChecked (List.replicate 0 []) (0 % 0) e = none := rfl
    rw [distributeRankedAux_cons, hpush]
  | nil =>
    have hsortnil : (stableSortBy (fun (a b : Nat × Entry) => decide (a.1 ≤ b.1))
        (entries.filterMap
          (fun e => (lookupEntryRank e rankings).map (fun r => (r, e))))) = [] := by
      exact List.map_eq_nil_iff.mp hL
    have hrankednil : (entries.filterMap
        (fun e => (lookupEntryRank e rankings).map (fun r => (r, e)))) = [] := by
      have hp := stableSortBy_perm (fun (a b : Nat × Entry) => decide (a.1 ≤ b.1))
        (entries.filterMap
          (fun e => (lookupEntryRank e rankings).map (fun r => (r, e))))
      rw [hsortnil] at hp
      exact (hp.symm.eq_nil)
    have hall : ∀ e ∈ entries, (lookupEntryRank e rankings).isNone = true := by
      intro e he
      have := List.filterMap_eq_nil_iff.mp hrankednil e he
      cases hle : lookupEntryRank e rankings
      · rfl
      · rw [hle] at this; simp at this
    have hfilter : entries.filter (fun e => (lookupEntryRank e rankings).isNone)
        = entries := List.filter_eq_self.mpr hall
    rw [distributeRankedAux_nil, hfilter]
    have hlenpos : 0 < ((shuffleArray entries seed).1).length := by
      rw [(shuffleArray_fst_perm entries seed).length_eq]
      exact List.length_pos.mpr h
    cases hs : (shuffleArray entries seed).1 with
    | nil => rw [hs] at hlenpos; simp at hlenpos
    | cons x xs => rfl

theorem populatedCourseEntries_isSome (courses : List Course)
    (entries : List Entry) (seed : Nat) (course : Course)
    (hmem : course ∈ courses) :
    (populatedCourseEntries courses entries seed course).isSome = true := by
  simp only [populatedCourseEntries]
  by_cases hsp : course.splitNumber.getD 0 ≠ 0
  · simp only [if_pos hsp]
    have hpos : 0 <
        (courses.filter (fun c => c.originalClass == course.originalClass)).length := by
      have hmem2 : course ∈
          courses.filter (fun c => c.originalClass == course.originalClass) := by
        rw [List.mem_filter]
        exact ⟨hmem, by simp⟩
      exact List.length_pos.mpr (List.ne_nil_of_mem hmem2)
    obtain ⟨gs, hgs, -, -, -⟩ := splitClassByRanking_spec
      (entries.filter (fun e => e.className == course.originalClass)) _ [] seed hpos
    rw [hgs]
    rfl
  · simp [if_neg hsp]

theorem populateCourse_isSome (courses : List Course) (entries : List Entry)
    (seed : Nat) (area : StartArea) (lane : Lane) (course : Course)
    (hmem : course ∈ courses) :
    (populateCourse courses entries seed area lane course).isSome = true := by
  have h := populatedCourseEntries_isSome courses entries seed course hmem
  simp only [populateCourse]
  cases hpe : populatedCourseEntries courses entries seed course with
  | none => rw [hpe] at h; simp at h
  | some ce => rfl

theorem populateLaneFold_isSome (courses : List Course) (entries : List Entry)
    (seed : Nat) (area : StartArea) (lane : Lane) :
    ∀ (ids : List String) (acc : List Course),
      (ids.foldlM (fun (acc2 : List Course) (courseId : String) =>
        match courses.find? (fun (c : Course) => c.id == courseId) with
        | none => some acc2
        | some course =>
          (populateCourse courses entries seed area lane course).map
            (fun pc => acc2 ++ [pc])) acc).isSome = true := by
  intro ids
  induction ids with
  | nil => intro acc; rfl
  | cons cid rest IH =>
    intro acc
    rw [List.foldlM_cons]
    cases hf : courses.find? (fun c => c.id == cid) with
    | none =>
      simp only [hf, Option.some_bind]
      exact IH _
    | some course =>
      simp only [hf]
      have hmem := List.mem_of_find?_eq_some hf
      have hsome := populateCourse_isSome courses entries seed area lane course hmem
      cases hpc : populateCourse courses entries seed area lane course with
      | none => rw [hpc] at hsome; simp at hsome
      | some pc =>
        exact IH _

theorem populateLane_isSome (courses : List Course) (entries : List Entry)
    (seed : Nat) (area : StartArea) (lane : Lane) (acc : List Course) :
    (populateLane courses entries seed area lane acc).isSome = true :=
  populateLaneFold_isSome courses entries seed area lane lane.courseIds acc

theorem populateLanesFold_isSome (courses : List Course) (entries : List Entry)
    (seed : Nat) (area : StartArea) :
    ∀ (lanes : List Lane) (acc : List Course),
      (lanes.foldlM (fun (acc2 : List Course) (lane : Lane) =>
        populateLane courses entries seed area lane acc2) acc).isSome = true := by
  intro lanes
  induction lanes with
  | nil => intro acc; rfl
  | cons lane rest IH =>
    intro acc
    rw [List.foldlM_cons]
    have h := populateLane_isSome courses entries seed area lane acc
    cases hpl : populateLane courses entries seed area lane acc with
    | none => rw [hpl] at h; simp at h
    | some acc2 =>
      exact IH _

theorem populateAllFold_isSome (courses : List Course) (entries : List Entry)
    (seed : Nat) :
    ∀ (areas : List StartArea) (acc : List Course),
      (areas.foldlM (fun (acc : List Course) (area : StartArea) =>
        area.lanes.foldlM (fun acc2 lane =>
          populateLane courses entries seed area lane acc2) acc) acc).isSome = true := by
  intro areas
  induction areas with
  | nil => intro acc; rfl
  | cons area rest IH =>
    intro acc
    rw [List.foldlM_cons]
    have h := populateLanesFold_isSome courses entries seed area area.lanes acc
    cases hpl : area.lanes.foldlM (fun (acc2 : List Course) (lane : Lane) =>
        populateLane courses entries seed area lane acc2) acc with
    | none => rw [hpl] at h; simp at h
    | some acc2 =>
      exact IH _

theorem populateAll_isSome (courses : List Course) (startAreas : List StartArea)
    (entries : List Entry) (seed : Nat) :
    (populateAll courses startAreas entries seed).isSome = true :=
  populateAllFold_isSome courses entries seed startAreas []

theorem generateStartList_isSome (courses : List Course)
    (startAreas : List StartArea) (entries : List Entry)
    (constraints : Constraints) (seed : Nat) :
    (generateStartList courses startAreas entries constraints seed).isSome = true := by
  have h := populateAll_isSome courses startAreas entries seed
  simp only [generateStartList]
  cases hp : populateAll courses startAreas entries seed with
  | none => rw [hp] at h; simp at h
  | some pcs => rfl

/-! ### Concrete test fixtures used by the claim theorems -/

/-- A minimal competitor record for concrete instances. -/
def mkTestEntry (nm cls aff : String) : Entry :=
  { id := nm, className := cls, name1 := nm, name2 := "", affiliation := aff,
    affiliations := [aff], cardNumber := "1", joaNumber := "", isRental := false,
    gender := "", rowNumber := 0, participantNumber := 0, ranking := none }

/-- A minimal unsplit course record for concrete instances. -/
def mkTestCourse (cid nm cls : String) (ord : Nat) (es : List Entry) : Course :=
  { id := cid, name := nm, originalClass := cls, splitNumber := none,
    entries := es, assigned := true, startAreaId := none, laneId := none,
    order := some ord }

/-- A minimal constraints record for concrete instances. -/
def mkTestConstraints (avoid : Bool) (msa : Nat) : Constraints :=
  { isRankingEvent := false, avoidSameClubConsecutive := avoid,
    maxShuffleAttempts := msa, useRankingForSplit := [],
    raceType := RaceType.forest, allowSameTimeClubDuplicates := true,
    sameTimeClubScope := SameTimeScope.all, sameTimeClubSelectedAreas := [],
    allowSameLaneClubDuplicates := LanePolicy.disallowAll,
    sameLaneClubSelectedCourses := [], sameLaneClubTimeWindow := 5 }

def c1Entries : List Entry := [mkTestEntry "p" "A" "x", mkTestEntry "q" "B" "y"]

def c1Courses : List Course :=
  [mkTestCourse "course-a" "A" "A" 0 [mkTestEntry "p" "A" "x"],
   mkTestCourse "course-b" "B" "B" 1 [mkTestEntry "q" "B" "y"]]

/-- A lane with two assigned courses and the given inter-course gap. -/
def c1Lane (gap : Nat) : Lane :=
  { id := "lane1", name := "Lane 1", startTime := "10:00", startNumber := 1,
    interval := 2, interCourseGap := gap, affiliationSplit := false,
    courseIds := ["course-a", "course-b"] }

def c1Area (gap : Nat) : StartArea :=
  { id := "area1", name := "Start 1", lanes := [c1Lane gap] }

def c4Entries : List Entry :=
  [mkTestEntry "a1" "M" "clubA", mkTestEntry "a2" "M" "clubA",
   mkTestEntry "b" "M" "clubB"]

def c4Courses : List Course := [mkTestCourse "course-m" "M" "M" 0 []]

def c4Lane : Lane :=
  { id := "lane1", name := "Lane 1", startTime := "10:00", startNumber := 1,
    interval := 2, interCourseGap := 0, affiliationSplit := true,
    courseIds := ["course-m"] }

def c4Area : StartArea := { id := "area1", name := "Start 1", lanes := [c4Lane] }

def c5Courses : List Course :=
  [mkTestCourse "course-a" "A" "A" 0 []]

def c5Lane : Lane :=
  { id := "lane1", name := "Lane 1", startTime := "10:00", startNumber := 1,
    interval := 2, interCourseGap := 0, affiliationSplit := false,
    courseIds := ["course-a", "missing-course"] }

def c5Area : StartArea := { id := "area1", name := "Start 1", lanes := [c5Lane] }

def c5ExpectedRow : StartListEntry :=
  { className := "A", startNumber := 1, name1 := "p", name2 := "",
    affiliation := "x", startTime := "10:00:00", cardNumber := "1",
    cardNote := "my card", joaNumber := "", isRental := false,
    lane := "Lane 1", startArea := "Start 1" }

def c8Row (nm : String) (t : Nat) : StartListEntry :=
  { className := "M", startNumber := 1, name1 := nm, name2 := "",
    affiliation := "clubx", startTime := formatTime t, cardNumber := "1",
    cardNote := "my card", joaNumber := "", isRental := false,
    lane := "Lane 1", startArea := "Start 1" }

/-- Constraints with the same-lane check enabled (`disallow-all`), the
same-time check disabled, and the given time window. -/
def c8Constraints (w : Nat) : Constraints :=
  { isRankingEvent := false, avoidSameClubConsecutive := true,
    maxShuffleAttempts := 1000, useRankingForSplit := [],
    raceType := RaceType.forest, allowSameTimeClubDuplicates := true,
    sameTimeClubScope := SameTimeScope.all, sameTimeClubSelectedAreas := [],
    allowSameLaneClubDuplicates := LanePolicy.disallowAll,
    sameLaneClubSelectedCourses := [], sameLaneClubTimeWindow := w }

set_option maxRecDepth 100000

/-! ### Claim theorems -/

/-- C1: the claim says `generateStartListForLane` advances the running time
base by the lane's `interCourseGap` after each course.  The code does not:
at the failing input (a lane with `interCourseGap = 10`, interval 2, and two
one-entry courses) the second course's first entry starts at 10:02:00 — the
per-entry interval alone — not 10:12:00, and more generally the output is
identical for every value of `interCourseGap`, which the generator never
reads. -/
theorem c1_interCourseGap_ignored :
    ((generateStartListForLane c1Courses (c1Lane 10) (c1Area 10) false 0).map
      (fun r => r.startTime) = ["10:00:00", "10:02:00"]) ∧
    (∀ (courses : List Course) (lane : Lane) (startArea : StartArea)
        (b : Bool) (seed g : Nat),
      generateStartListForLane courses { lane with interCourseGap := g }
        startArea b seed =
      generateStartListForLane courses lane startArea b seed) := by
  refine ⟨by decide, ?_⟩
  intro courses lane startArea b seed g
  rfl

/-- C2: schedule generation is deterministic — the embedding is a pure
function of its arguments (the PRNG state is threaded explicitly and no
other state exists), so two calls of `generateStartList` or of
`shuffleAvoidingConsecutiveAffiliations` with identical arguments are
definitionally equal. -/
theorem c2_determinism :
    (∀ (courses : List Course) (startAreas : List StartArea)
        (entries : List Entry) (constraints : Constraints) (seed : Nat),
      generateStartList courses startAreas entries constraints seed =
      generateStartList courses startAreas entries constraints seed) ∧
    (∀ (entries : List Entry) (maxAttempts seed : Nat),
      shuffleAvoidingConsecutiveAffiliations entries maxAttempts seed =
      shuffleAvoidingConsecutiveAffiliations entries maxAttempts seed) :=
  ⟨fun _ _ _ _ _ => rfl, fun _ _ _ => rfl⟩

/-- C4: the claim says the attempt bound passed to the shuffler equals
`constraints.maxShuffleAttempts`.  The code hard-codes 1000: at the failing
input (`maxShuffleAttempts = 0`, which would keep the input order) the
generated schedule equals the 1000-attempt schedule and the shuffler output
with bound 0 differs from the bound-1000 output; in general
`generateStartList` is independent of the `maxShuffleAttempts` field. -/
theorem c4_maxShuffleAttempts_ignored :
    (shuffleAvoidingConsecutiveAffiliations c4Entries 0 7 = c4Entries) ∧
    (shuffleAvoidingConsecutiveAffiliations c4Entries 1000 7 ≠ c4Entries) ∧
    (generateStartList c4Courses [c4Area] c4Entries (mkTestConstraints true 0) 7 =
      generateStartList c4Courses [c4Area] c4Entries (mkTestConstraints true 1000) 7) ∧
    (∀ (courses : List Course) (startAreas : List StartArea)
        (entries : List Entry) (constraints : Constraints) (seed m : Nat),
      generateStartList courses startAreas entries
        { constraints with maxShuffleAttempts := m } seed =
      generateStartList courses startAreas entries constraints seed) := by
  refine ⟨by decide, by decide, by decide, ?_⟩
  intro courses startAreas entries constraints seed m
  rfl

/-- C5 counterexample: a lane whose `courseIds` contains an id absent from
`courses` does not make `generateStartList` fail: at this concrete input
(lane referencing `"course-a"` and the nonexistent `"missing-course"`, with
an entry of class B that only the missing course could have scheduled) the
function returns a normal schedule (`some …`, i.e. no JS exception) that
contains only the class-A row, silently omitting the rest — refuting the
claim that it fails with a descriptive error before emitting any row. -/
theorem c5_counterexample :
    generateStartList c5Courses [c5Area] c1Entries (mkTestConstraints true 1000) 0 =
      some [c5ExpectedRow] := by decide

/-- C5 (amended): `generateStartList` never fails: an unknown course id in a
lane's `courseIds` is skipped by `continue` (and the entries only that
course would carry are silently omitted), and no other code path in the
generator can throw. -/
theorem c5_never_fails :
    ∀ (courses : List Course) (startAreas : List StartArea)
      (entries : List Entry) (constraints : Constraints) (seed : Nat),
      (generateStartList courses startAreas entries constraints seed).isSome = true :=
  generateStartList_isSome

/-- C3: for `splitCount > 1`, `splitClassByRanking` succeeds, the
concatenation of the returned groups is a permutation of the input entries
(no entry lost or duplicated), there are exactly `splitCount` groups, and
any two group sizes differ by at most 1. -/
theorem c3_split_partition_balanced :
    ∀ (entries : List Entry) (rankings : List (String × Nat)) (seed n : Nat),
      1 < n →
      (splitClassByRanking entries n rankings seed).isSome = true ∧
      ((splitClassByRanking entries n rankings seed).getD []).flatten.Perm entries ∧
      ((splitClassByRanking entries n rankings seed).getD []).length = n ∧
      (∀ i j, i < n → j < n →
        (((splitClassByRanking entries n rankings seed).getD []).getD i []).length ≤
        (((splitClassByRanking entries n rankings seed).getD []).getD j []).length + 1) := by
  intro entries rankings seed n hn
  obtain ⟨gs, hgs, hlen, hperm, hbal⟩ :=
    splitClassByRanking_spec entries n rankings seed (by omega)
  rw [hgs]
  simp only [Option.isSome_some, Option.getD_some]
  refine ⟨trivial, hperm, hlen, ?_⟩
  intro i j hi hj
  have hblen : (groupSizes gs).length = n := by rw [groupSizes_length, hlen]
  have hb := hbal i j (by rw [hblen]; exact hi) (by rw [hblen]; exact hj)
  rw [groupSizes_getD, groupSizes_getD] at hb
  exact hb

def c3wEntries : List Entry :=
  [mkTestEntry "w1" "M" "u", mkTestEntry "w2" "M" "v", mkTestEntry "w3" "M" "w"]

/-- Witness for C3 at a concrete input (three entries, `splitCount = 2`). -/
theorem c3_witness :
    1 < 2 ∧
    ((splitClassByRanking c3wEntries 2 [] 5).isSome = true ∧
     ((splitClassByRanking c3wEntries 2 [] 5).getD []).flatten.Perm c3wEntries ∧
     ((splitClassByRanking c3wEntries 2 [] 5).getD []).length = 2 ∧
     (∀ i j, i < 2 → j < 2 →
       (((splitClassByRanking c3wEntries 2 [] 5).getD []).getD i []).length ≤
       (((splitClassByRanking c3wEntries 2 [] 5).getD []).getD j []).length + 1)) :=
  ⟨by decide, c3_split_partition_balanced c3wEntries [] 5 2 (by decide)⟩

/-- C7 counterexample: `splitCount = 0` with a nonempty entry list is an
error in the code — `groups[NaN].push` / `groups[0].length` throws a
`TypeError`, modelled by `none` — refuting the claim that `splitCount = 0`
does not raise an error. -/
theorem c7_counterexample :
    splitClassByRanking [mkTestEntry "z" "M" "t"] 0 [] 1 = none := by decide

/-- C7 (amended): `splitCount = 1` never raises and yields a single group
containing all the entries (as a multiset); empty input yields `splitCount`
empty groups; but `splitCount = 0` with a nonempty entry list throws a
`TypeError` (`none`). -/
theorem c7_degenerate_inputs :
    (∀ (entries : List Entry) (rankings : List (String × Nat)) (seed : Nat),
      ∃ g, splitClassByRanking entries 1 rankings seed = some [g] ∧
        g.Perm entries) ∧
    (∀ (n : Nat) (rankings : List (String × Nat)) (seed : Nat),
      splitClassByRanking [] n rankings seed = some (List.replicate n [])) ∧
    (∀ (entries : List Entry) (rankings : List (String × Nat)) (seed : Nat),
      entries ≠ [] → splitClassByRanking entries 0 rankings seed = none) := by
  refine ⟨?_, splitClassByRanking_nil, splitClassByRanking_zero_of_ne_nil⟩
  intro entries rankings seed
  obtain ⟨gs, hgs, hlen, hperm, -⟩ :=
    splitClassByRanking_spec entries 1 rankings seed (by omega)
  obtain ⟨g, rfl⟩ := List.length_eq_one.mp hlen
  refine ⟨g, hgs, ?_⟩
  simpa using hperm

/-- Witness for C7 at concrete inputs, discharging the nonemptiness
hypothesis of the `splitCount = 0` conjunct. -/
theorem c7_witness :
    ([mkTestEntry "y" "M" "s"] ≠ ([] : List Entry)) ∧
    splitClassByRanking [mkTestEntry "y" "M" "s"] 0 [] 2 = none :=
  ⟨by decide, c7_degenerate_inputs.2.2 [mkTestEntry "y" "M" "s"] [] 2 (by decide)⟩

/-- C10: conflict-avoiding ordering runs for a lane only when both the
per-lane `affiliationSplit` flag and the global `avoidSameClubConsecutive`
flag are set (the flag passed down is their conjunction); when the
per-course flag is off the ordering is the plain seeded shuffle; and when
the global flag is false the whole generator coincides with
`generateStartListPlain`, in which every lane's courses are ordered by the
plain seeded shuffle regardless of the per-lane flag. -/
theorem c10_plain_shuffle_when_disabled :
    (∀ (lane : Lane) (constraints : Constraints),
      laneOrderingFlag lane constraints = true ↔
        (lane.affiliationSplit = true ∧
         constraints.avoidSameClubConsecutive = true)) ∧
    (∀ (entries : List Entry) (seed : Nat),
      orderCourseEntries false entries seed = (shuffleArray entries seed).1) ∧
    (∀ (courses : List Course) (startAreas : List StartArea)
        (entries : List Entry) (constraints : Constraints) (seed : Nat),
      constraints.avoidSameClubConsecutive = false →
      generateStartList courses startAreas entries constraints seed =
      generateStartListPlain courses startAreas entries seed) := by
  refine ⟨?_, fun _ _ => rfl, ?_⟩
  · intro lane constraints
    simp [laneOrderingFlag, Bool.and_eq_true]
  · intro courses startAreas entries constraints seed h
    simp only [generateStartList, generateStartListPlain]
    have hflag : (fun lane => laneOrderingFlag lane constraints) =
        (fun _ : Lane => false) := by
      funext lane
      simp [laneOrderingFlag, h]
    rw [hflag]

/-- Witness for C10: at a concrete configuration with the global flag off
(and the per-lane flag on), the generator equals the all-plain variant. -/
theorem c10_witness :
    ((mkTestConstraints false 1000).avoidSameClubConsecutive = false) ∧
    generateStartList c4Courses [c4Area] c4Entries (mkTestConstraints false 1000) 7 =
      generateStartListPlain c4Courses [c4Area] c4Entries 7 :=
  ⟨rfl, c10_plain_shuffle_when_disabled.2.2 c4Courses [c4Area] c4Entries
    (mkTestConstraints false 1000) 7 rfl⟩

theorem splitOnP_eq_single {p : Char → Bool} :
    ∀ (l : List Char), (∀ c ∈ l, p c = false) → l.splitOnP p = [l] := by
  intro l
  induction l with
  | nil => intro _; exact List.splitOnP_nil p
  | cons c t IH =>
    intro h
    rw [List.splitOnP_cons, h c (by simp)]
    rw [if_neg (by simp)]
    rw [IH (fun c2 hc2 => h c2 (List.mem_cons_of_mem c hc2))]
    rfl

theorem splitAffString_single (s : String)
    (h : ∀ c ∈ s.data, affSeparators.contains c = false) :
    splitAffString s = [s] := by
  simp only [splitAffString]
  rw [splitOnP_eq_single s.data h]
  rfl

/-- The entry for the C6 counterexample: its raw affiliation contains a
full-width space (U+3000), so the import-side parse (which collapses
whitespace) and the conflict detector's re-parse (which only trims the
ends) produce different tokens. -/
def c6Entry : Entry :=
  { id := "c6", className := "M", name1 := "x", name2 := "",
    affiliation := "Club　A", affiliations := ["Club A"], cardNumber := "1",
    joaNumber := "", isRental := false, gender := "", rowNumber := 0,
    participantNumber := 0, ranking := none }

def c6Course : Course := mkTestCourse "course-m" "M" "M" 0 [c6Entry]

/-- C6 counterexample: the shuffler's token set for `c6Entry` is
`["club a"]` (half-width space, from the parsed `affiliations` list), while
the conflict detector re-parses the schedule row's raw affiliation and gets
`["club　a"]` (full-width space kept) — two different token sets for the
same competitor, refuting the claim that the two components always agree. -/
theorem c6_counterexample :
    getAffiliationsForCheck c6Entry = ["club a"] ∧
    (generateStartListForLane [c6Course] (c1Lane 0) (c1Area 0) false 0).map
      parseAffiliationsFromEntry = [["club　a"]] ∧
    ("club a" : String) ≠ "club　a" := by decide

/-- C6 (amended): the two token functions use different normalizations and
can disagree; they do agree on every entry that has no pre-parsed
`affiliations` and whose raw affiliation contains none of the separator
characters `/`, `,`, `、` — then both reduce to the same
strip-digits/trim/lower-case normalization of the raw string. -/
theorem c6_tokens_agree_without_separators :
    ∀ (e : Entry) (course : Course) (lane : Lane) (startArea : StartArea)
      (num t : Nat),
      e.affiliations = [] →
      (∀ c ∈ e.affiliation.data, affSeparators.contains c = false) →
      parseAffiliationsFromEntry (toStartListRow course lane startArea e num t) =
        getAffiliationsForCheck e := by
  intro e course lane startArea num t haffs hnosep
  by_cases h0 : e.affiliation = ""
  · simp [parseAffiliationsFromEntry, toStartListRow, getAffiliationsForCheck,
      haffs, h0]
  · by_cases h1 : e.affiliation = "-"
    · simp [parseAffiliationsFromEntry, toStartListRow, getAffiliationsForCheck,
        haffs, h0, h1]
    · have hrow : (toStartListRow course lane startArea e num t).affiliation =
          e.affiliation := by
        simp [toStartListRow, h0]
      simp only [parseAffiliationsFromEntry, hrow, getAffiliationsForCheck, haffs]
      rw [splitAffString_single e.affiliation hnosep]
      simp [h0, h1]

def c6wEntry : Entry :=
  { id := "c6w", className := "M", name1 := "xw", name2 := "",
    affiliation := "TeamX", affiliations := [], cardNumber := "1",
    joaNumber := "", isRental := false, gender := "", rowNumber := 0,
    participantNumber := 0, ranking := none }

/-- Witness for C6 at a concrete separator-free entry. -/
theorem c6_witness :
    c6wEntry.affiliations = [] ∧
    (∀ c ∈ c6wEntry.affiliation.data, affSeparators.contains c = false) ∧
    parseAffiliationsFromEntry
      (toStartListRow (mkTestCourse "course-m" "M" "M" 0 []) (c1Lane 0)
        (c1Area 0) c6wEntry 1 600) =
      getAffiliationsForCheck c6wEntry :=
  ⟨rfl, by decide,
    c6_tokens_agree_without_separators c6wEntry
      (mkTestCourse "course-m" "M" "M" 0 []) (c1Lane 0) (c1Area 0) 1 600
      rfl (by decide)⟩

/-! ### Ranking-independence machinery (C9): the schedule does not read the
`ranking` field, and `generateStartList` hard-codes an empty rank lookup. -/

/-- Rewrite every entry's (unused) `ranking` field. -/
def updateRanking (f : Entry → Option Nat) (e : Entry) : Entry :=
  { e with ranking := f e }

theorem overlap_updateRanking (f : Entry → Option Nat) (a b : Entry) :
    hasAffiliationOverlap (updateRanking f a) (updateRanking f b) =
      hasAffiliationOverlap a b := rfl

theorem countConsecutiveConflicts_cons2 (a b : Entry) (t : List Entry) :
    countConsecutiveConflicts (a :: b :: t) =
      (if hasAffiliationOverlap a b then 1 else 0) +
        countConsecutiveConflicts (b :: t) := rfl

theorem count_map_updateRanking (f : Entry → Option Nat) :
    ∀ (l : List Entry),
      countConsecutiveConflicts (l.map (updateRanking f)) =
        countConsecutiveConflicts l
  | [] => rfl
  | [_] => rfl
  | a :: b :: t => by
    rw [List.map_cons, List.map_cons, countConsecutiveConflicts_cons2,
      countConsecutiveConflicts_cons2, overlap_updateRanking]
    have hmap : (updateRanking f b :: t.map (updateRanking f)) =
        (b :: t).map (updateRanking f) := rfl
    rw [hmap, count_map_updateRanking f (b :: t)]

theorem findIdx_map_general {α β : Type} (g : α → β) (p : β → Bool) :
    ∀ l : List α, (l.map g).findIdx p = l.findIdx (fun a => p (g a))
  | [] => rfl
  | a :: t => by
    rw [List.map_cons, List.findIdx_cons, List.findIdx_cons,
      findIdx_map_general g p t]

theorem eraseIdx_map_general {α β : Type} (g : α → β) :
    ∀ (l : List α) (i : Nat), (l.map g).eraseIdx i = (l.eraseIdx i).map g
  | [], _ => by simp
  | _ :: _, 0 => by simp
  | a :: t, i + 1 => by
    simp only [List.map_cons, List.eraseIdx_cons_succ]
    rw [eraseIdx_map_general g t i]

theorem listSwap_map {α β : Type} (g : α → β) (l : List α) (i j : Nat) :
    listSwap (l.map g) i j = (listSwap l i j).map g := by
  unfold listSwap
  rw [List.getElem?_map, List.getElem?_map]
  cases l[i]? <;> cases l[j]? <;> simp [List.map_set]

theorem shuffleArrayAux_map {α β : Type} (g : α → β) :
    ∀ (c st : Nat) (l : List α),
      shuffleArrayAux c st (l.map g) =
        ((shuffleArrayAux c st l).1.map g, (shuffleArrayAux c st l).2)
  | 0, _, _ => rfl
  | c + 1, st, l => by
    rw [shuffleArrayAux_succ, shuffleArrayAux_succ, listSwap_map,
      shuffleArrayAux_map g c _ _]

theorem shuffleArray_map {α β : Type} (g : α → β) (l : List α) (st : Nat) :
    shuffleArray (l.map g) st =
      ((shuffleArray l st).1.map g, (shuffleArray l st).2) := by
  simp only [shuffleArray, List.length_map]
  exact shuffleArrayAux_map g _ st l

theorem orderedInsertBy_map {α β : Type} (g : α → β) (le : α → α → Bool)
    (le2 : β → β → Bool) (h : ∀ a b, le2 (g a) (g b) = le a b) (a : α) :
    ∀ l, orderedInsertBy le2 (g a) (l.map g) = (orderedInsertBy le a l).map g
  | [] => rfl
  | b :: t => by
    rw [List.map_cons, orderedInsertBy_cons, orderedInsertBy_cons, h a b]
    by_cases hc : le a b
    · rw [if_pos hc, if_pos hc]
      rfl
    · rw [if_neg hc, if_neg hc, List.map_cons,
        orderedInsertBy_map g le le2 h a t]

theorem stableSortBy_map {α β : Type} (g : α → β) (le : α → α → Bool)
    (le2 : β → β → Bool) (h : ∀ a b, le2 (g a) (g b) = le a b) :
    ∀ l, stableSortBy le2 (l.map g) = (stableSortBy le l).map g
  | [] => rfl
  | a :: t => by
    rw [List.map_cons, stableSortBy_cons, stableSortBy_cons,
      stableSortBy_map g le le2 h t, orderedInsertBy_map g le le2 h a]

theorem greedyInsertLoop_succ_cons (fuel : Nat) (last h : Entry)
    (t : List Entry) :
    greedyInsertLoop (fuel + 1) last (h :: t) =
      (if hi : (h :: t).findIdx (fun e => !(hasAffiliationOverlap last e)) <
          (h :: t).length then
        (h :: t).get ⟨(h :: t).findIdx (fun e => !(hasAffiliationOverlap last e)), hi⟩ ::
          greedyInsertLoop fuel
            ((h :: t).get ⟨(h :: t).findIdx (fun e => !(hasAffiliationOverlap last e)), hi⟩)
            ((h :: t).eraseIdx ((h :: t).findIdx (fun e => !(hasAffiliationOverlap last e))))
      else h :: greedyInsertLoop fuel h t) := rfl

theorem greedyInsertLoop_map (f : Entry → Option Nat) :
    ∀ (fuel : Nat) (last : Entry) (l : List Entry),
      greedyInsertLoop fuel (updateRanking f last) (l.map (updateRanking f)) =
        (greedyInsertLoop fuel last l).map (updateRanking f)
  | 0, _, _ => rfl
  | _ + 1, _, [] => rfl
  | fuel + 1, last, h :: t => by
    have hfind : ((updateRanking f h) :: t.map (updateRanking f)).findIdx
        (fun e => !(hasAffiliationOverlap (updateRanking f last) e)) =
        (h :: t).findIdx (fun e => !(hasAffiliationOverlap last e)) := by
      have hm : ((updateRanking f h) :: t.map (updateRanking f)) =
          (h :: t).map (updateRanking f) := rfl
      rw [hm, findIdx_map_general]
      rfl
    rw [List.map_cons, greedyInsertLoop_succ_cons, greedyInsertLoop_succ_cons,
      hfind]
    have hlen : (updateRanking f h :: t.map (updateRanking f)).length =
        (h :: t).length := by simp
    by_cases hlt : (h :: t).findIdx (fun e => !(hasAffiliationOverlap last e)) <
        (h :: t).length
    · rw [dif_pos (by rw [hlen]; exact hlt), dif_pos hlt]
      have hget : (updateRanking f h :: t.map (updateRanking f)).get
          ⟨(h :: t).findIdx (fun e => !(hasAffiliationOverlap last e)),
            by rw [hlen]; exact hlt⟩ =
          updateRanking f ((h :: t).get
            ⟨(h :: t).findIdx (fun e => !(hasAffiliationOverlap last e)), hlt⟩) := by
        have hm : (updateRanking f h :: t.map (updateRanking f)) =
            (h :: t).map (updateRanking f) := rfl
        simp only [hm, List.get_eq_getElem, List.getElem_map]
      rw [hget]
      have herase : (updateRanking f h :: t.map (updateRanking f)).eraseIdx
          ((h :: t).findIdx (fun e => !(hasAffiliationOverlap last e))) =
          ((h :: t).eraseIdx
            ((h :: t).findIdx (fun e => !(hasAffiliationOverlap last e)))).map
            (updateRanking f) := by
        have hm : (updateRanking f h :: t.map (updateRanking f)) =
            (h :: t).map (updateRanking f) := rfl
        rw [hm, eraseIdx_map_general]
      rw [herase, List.map_cons]
      rw [greedyInsertLoop_map f fuel _ _]
    · rw [dif_neg (by rw [hlen]; exact hlt), dif_neg hlt, List.map_cons]
      rw [greedyInsertLoop_map f fuel h t]

theorem greedyOrderByAffiliation_map (f : Entry → Option Nat) (l : List Entry) :
    greedyOrderByAffiliation (l.map (updateRanking f)) =
      (greedyOrderByAffiliation l).map (updateRanking f) := by
  simp only [greedyOrderByAffiliation, List.length_map]
  by_cases hl : l.length ≤ 1
  · rw [if_pos hl, if_pos hl]
  · rw [if_neg hl, if_neg hl]
    cases l with
    | nil => rfl
    | cons h t =>
      simp only [List.map_cons]
      have hfuel : (t.map (updateRanking f)).length = t.length := by simp
      rw [hfuel]
      exact congrArg (updateRanking f h :: ·) (greedyInsertLoop_map f t.length h t)

theorem savAux_succ (entries : List Entry) (a st : Nat) (best : List Entry)
    (bestConf : Nat) :
    savAux entries (a + 1) st best bestConf =
      (let p := shuffleArray entries st
       let result := greedyOrderByAffiliation p.1
       let conflicts := countConsecutiveConflicts result
       let best1 := if conflicts < bestConf then result else best
       let bestConf1 := if conflicts < bestConf then conflicts else bestConf
       if conflicts = 0 then best1 else savAux entries a p.2 best1 bestConf1) := rfl

theorem savAux_map (f : Entry → Option Nat) (l : List Entry) :
    ∀ (a st : Nat) (best : List Entry) (bc : Nat),
      savAux (l.map (updateRanking f)) a st (best.map (updateRanking f)) bc =
        (savAux l a st best bc).map (updateRanking f)
  | 0, _, _, _ => rfl
  | a + 1, st, best, bc => by
    simp only [savAux_succ, shuffleArray_map, greedyOrderByAffiliation_map,
      count_map_updateRanking]
    by_cases h0 : countConsecutiveConflicts
        (greedyOrderByAffiliation (shuffleArray l st).1) = 0
    · rw [if_pos h0, if_pos h0]
      by_cases h1 : countConsecutiveConflicts
          (greedyOrderByAffiliation (shuffleArray l st).1) < bc
      · rw [if_pos h1, if_pos h1]
      · rw [if_neg h1, if_neg h1]
    · rw [if_neg h0, if_neg h0]
      have hite : (if countConsecutiveConflicts
            (greedyOrderByAffiliation (shuffleArray l st).1) < bc then
          (greedyOrderByAffiliation (shuffleArray l st).1).map (updateRanking f)
        else best.map (updateRanking f)) =
        ((if countConsecutiveConflicts
            (greedyOrderByAffiliation (shuffleArray l st).1) < bc then
          greedyOrderByAffiliation (shuffleArray l st).1 else best).map
          (updateRanking f)) := by
        by_cases h1 : countConsecutiveConflicts
            (greedyOrderByAffiliation (shuffleArray l st).1) < bc
        · rw [if_pos h1, if_pos h1]
        · rw [if_neg h1, if_neg h1]
      rw [hite, savAux_map f l a _ _ _]

theorem shuffleAvoiding_map (f : Entry → Option Nat) (l : List Entry)
    (m s : Nat) :
    shuffleAvoidingConsecutiveAffiliations (l.map (updateRanking f)) m s =
      (shuffleAvoidingConsecutiveAffiliations l m s).map (updateRanking f) := by
  simp only [shuffleAvoidingConsecutiveAffiliations, List.length_map]
  by_cases h : l.length ≤ 1
  · rw [if_pos h, if_pos h]
  · rw [if_neg h, if_neg h, count_map_updateRanking]
    exact savAux_map f l m s l _

theorem orderCourseEntries_map (f : Entry → Option Nat) (flag : Bool)
    (l : List Entry) (s : Nat) :
    orderCourseEntries flag (l.map (updateRanking f)) s =
      (orderCourseEntries flag l s).map (updateRanking f) := by
  cases flag
  · simp [orderCourseEntries, shuffleArray_map]
  · simp [orderCourseEntries, shuffleAvoiding_map]

theorem lookupEntryRank_nil (e : Entry) : lookupEntryRank e [] = none := rfl

theorem filterMap_lookup_nil (l : List Entry) :
    l.filterMap (fun e => (lookupEntryRank e []).map (fun r => (r, e))) = [] := by
  induction l with
  | nil => rfl
  | cons e t IH =>
    rw [List.filterMap_cons]
    simp only [lookupEntryRank_nil, Option.map_none]
    exact IH

theorem filter_lookup_nil (l : List Entry) :
    l.filter (fun e => (lookupEntryRank e []).isNone) = l :=
  List.filter_eq_self.mpr (fun _ _ => rfl)

theorem getD_listmap {α β : Type} (g : α → β) (gs : List (List α)) (j : Nat) :
    (gs.map (List.map g)).getD j [] = (gs.getD j []).map g := by
  rw [List.getD_eq_getElem?_getD, List.getD_eq_getElem?_getD, List.getElem?_map]
  cases gs[j]? <;> rfl

theorem pushAtChecked_map (f : Entry → Option Nat) (gs : List (List Entry))
    (i : Nat) (e : Entry) :
    pushAtChecked (gs.map (List.map (updateRanking f))) i (updateRanking f e) =
      (pushAtChecked gs i e).map (fun gs2 => gs2.map (List.map (updateRanking f))) := by
  simp only [pushAtChecked, List.length_map]
  by_cases h : i < gs.length
  · rw [if_pos h, if_pos h]
    simp only [List.getD_eq_getElem?_getD, List.getElem?_map, Option.map_some']
    have hx : (Option.map (List.map (updateRanking f)) gs[i]?).getD [] =
        (gs[i]?.getD []).map (updateRanking f) := by
      cases gs[i]? <;> rfl
    rw [hx]
    simp [List.map_set]
  · rw [if_neg h, if_neg h]
    rfl

theorem minIdxOfGroups_map (f : Entry → Option Nat) (gs : List (List Entry)) :
    minIdxOfGroups (gs.map (List.map (updateRanking f))) = minIdxOfGroups gs := by
  cases gs with
  | nil => rfl
  | cons g rest =>
    simp only [List.map_cons, minIdxOfGroups, List.map_map, List.length_map]
    have hcomp : ((fun (g : List Entry) => g.length) ∘
        List.map (updateRanking f)) = (fun (g : List Entry) => g.length) := by
      funext g2
      simp
    rw [hcomp]

theorem distributeBalanced_map (f : Entry → Option Nat) :
    ∀ (l : List Entry) (gs : List (List Entry)),
      distributeBalanced (l.map (updateRanking f))
          (gs.map (List.map (updateRanking f))) =
        (distributeBalanced l gs).map
          (fun gs2 => gs2.map (List.map (updateRanking f)))
  | [], _ => rfl
  | e :: t, gs => by
    rw [List.map_cons]
    cases hm : minIdxOfGroups gs with
    | none =>
      simp only [distributeBalanced_cons, minIdxOfGroups_map, hm]
      rfl
    | some mi =>
      simp only [distributeBalanced_cons, minIdxOfGroups_map, hm,
        pushAtChecked_map]
      cases hp : pushAtChecked gs mi e with
      | none => simp [hp]
      | some gs1 =>
        simp only [hp, Option.map_some']
        exact distributeBalanced_map f t gs1

/-- With the empty rank lookup every entry takes the unranked path: the
partition is exactly the seeded shuffle followed by smallest-group
balancing over initially empty groups. -/
theorem splitClassByRanking_all_unranked (l : List Entry) (n s : Nat) :
    splitClassByRanking l n [] s =
      distributeBalanced (shuffleArray l s).1 (List.replicate n []) := by
  simp only [splitClassByRanking, filterMap_lookup_nil, stableSortBy_nil,
    List.map_nil, distributeRankedAux_nil, filter_lookup_nil]

theorem splitClassByRanking_map_nilRankings (f : Entry → Option Nat)
    (l : List Entry) (n s : Nat) :
    splitClassByRanking (l.map (updateRanking f)) n [] s =
      (splitClassByRanking l n [] s).map
        (fun gs => gs.map (List.map (updateRanking f))) := by
  rw [splitClassByRanking_all_unranked, splitClassByRanking_all_unranked]
  have h1 : (shuffleArray (l.map (updateRanking f)) s).1 =
      (shuffleArray l s).1.map (updateRanking f) := by rw [shuffleArray_map]
  rw [h1]
  have h2 : (List.replicate n ([] : List Entry)) =
      (List.replicate n ([] : List Entry)).map (List.map (updateRanking f)) := by
    simp
  conv_lhs => rw [h2]
  exact distributeBalanced_map f (shuffleArray l s).1 (List.replicate n [])

theorem filter_className_map (f : Entry → Option Nat) (l : List Entry)
    (cls : String) :
    (l.map (updateRanking f)).filter (fun e => e.className == cls) =
      (l.filter (fun e => e.className == cls)).map (updateRanking f) := by
  rw [List.filter_map]
  have h : ∀ a ∈ l, ((fun (e : Entry) => e.className == cls) ∘ updateRanking f) a
      = (fun (e : Entry) => e.className == cls) a := fun a _ => rfl
  rw [List.filter_congr h]

theorem populatedCourseEntries_map (f : Entry → Option Nat)
    (courses : List Course) (l : List Entry) (seed : Nat) (course : Course) :
    populatedCourseEntries courses (l.map (updateRanking f)) seed course =
      (populatedCourseEntries courses l seed course).map
        (List.map (updateRanking f)) := by
  simp only [populatedCourseEntries]
  by_cases hsp : course.splitNumber.getD 0 ≠ 0
  · rw [if_pos hsp, if_pos hsp, filter_className_map]
    cases hs : splitClassByRanking
        (l.filter (fun e => e.className == course.originalClass))
        ((courses.filter
          (fun c => c.originalClass == course.originalClass)).length) [] seed with
    | none => simp [splitClassByRanking_map_nilRankings, hs]
    | some groups =>
      simp only [splitClassByRanking_map_nilRankings, hs, Option.map_some']
      rw [getD_listmap]
  · rw [if_neg hsp, if_neg hsp, filter_className_map]
    rfl

/-- Rewrite the (unused) `ranking` field of every entry inside a course. -/
def mapCourseEntries (f : Entry → Option Nat) (c : Course) : Course :=
  { c with entries := c.entries.map (updateRanking f) }

theorem populateCourse_map (f : Entry → Option Nat) (courses : List Course)
    (l : List Entry) (seed : Nat) (area : StartArea) (lane : Lane)
    (course : Course) :
    populateCourse courses (l.map (updateRanking f)) seed area lane course =
      (populateCourse courses l seed area lane course).map
        (mapCourseEntries f) := by
  simp only [populateCourse, populatedCourseEntries_map]
  cases hpe : populatedCourseEntries courses l seed course with
  | none => rfl
  | some ce => rfl

theorem populateLaneFold_map (f : Entry → Option Nat) (courses : List Course)
    (l : List Entry) (seed : Nat) (area : StartArea) (lane : Lane) :
    ∀ (ids : List String) (acc : List Course),
      (ids.foldlM (fun (acc2 : List Course) (courseId : String) =>
        match courses.find? (fun (c : Course) => c.id == courseId) with
        | none => some acc2
        | some course =>
          (populateCourse courses (l.map (updateRanking f)) seed area lane
            course).map (fun pc => acc2 ++ [pc]))
        (acc.map (mapCourseEntries f))) =
      (ids.foldlM (fun (acc2 : List Course) (courseId : String) =>
        match courses.find? (fun (c : Course) => c.id == courseId) with
        | none => some acc2
        | some course =>
          (populateCourse courses l seed area lane course).map
            (fun pc => acc2 ++ [pc])) acc).map
        (List.map (mapCourseEntries f)) := by
  intro ids
  induction ids with
  | nil => intro acc; rfl
  | cons cid rest IH =>
    intro acc
    rw [List.foldlM_cons, List.foldlM_cons]
    cases hf : courses.find? (fun (c : Course) => c.id == cid) with
    | none =>
      simp only [hf]
      exact IH acc
    | some course =>
      simp only [hf]
      rw [populateCourse_map]
      cases hp : populateCourse courses l seed area lane course with
      | none => rfl
      | some pc =>
        simp only [Option.map_some', Option.some_bind]
        have hacc : (acc.map (mapCourseEntries f)) ++ [mapCourseEntries f pc] =
            (acc ++ [pc]).map (mapCourseEntries f) := by simp
        rw [hacc]
        exact IH (acc ++ [pc])

theorem populateLane_map (f : Entry → Option Nat) (courses : List Course)
    (l : List Entry) (seed : Nat) (area : StartArea) (lane : Lane)
    (acc : List Course) :
    populateLane courses (l.map (updateRanking f)) seed area lane
        (acc.map (mapCourseEntries f)) =
      (populateLane courses l seed area lane acc).map
        (List.map (mapCourseEntries f)) :=
  populateLaneFold_map f courses l seed area lane lane.courseIds acc

theorem populateLanesFold_map (f : Entry → Option Nat) (courses : List Course)
    (l : List Entry) (seed : Nat) (area : StartArea) :
    ∀ (lanes : List Lane) (acc : List Course),
      (lanes.foldlM (fun (acc2 : List Course) (lane : Lane) =>
        populateLane courses (l.map (updateRanking f)) seed area lane acc2)
        (acc.map (mapCourseEntries f))) =
      (lanes.foldlM (fun (acc2 : List Course) (lane : Lane) =>
        populateLane courses l seed area lane acc2) acc).map
        (List.map (mapCourseEntries f)) := by
  intro lanes
  induction lanes with
  | nil => intro acc; rfl
  | cons lane rest IH =>
    intro acc
    rw [List.foldlM_cons, List.foldlM_cons, populateLane_map]
    cases hp : populateLane courses l seed area lane acc with
    | none => rfl
    | some acc2 =>
      simp only [Option.map_some', Option.some_bind]
      exact IH acc2

theorem populateAll_map (f : Entry → Option Nat) (courses : List Course)
    (startAreas : List StartArea) (l : List Entry) (seed : Nat) :
    populateAll courses startAreas (l.map (updateRanking f)) seed =
      (populateAll courses startAreas l seed).map
        (List.map (mapCourseEntries f)) := by
  simp only [populateAll]
  suffices h : ∀ (areas : List StartArea) (acc : List Course),
      (areas.foldlM (fun (acc3 : List Course) (area : StartArea) =>
        area.lanes.foldlM (fun acc2 lane =>
          populateLane courses (l.map (updateRanking f)) seed area lane acc2)
          acc3) (acc.map (mapCourseEntries f))) =
      (areas.foldlM (fun (acc3 : List Course) (area : StartArea) =>
        area.lanes.foldlM (fun acc2 lane =>
          populateLane courses l seed area lane acc2) acc3) acc).map
        (List.map (mapCourseEntries f)) by
    exact h startAreas []
  intro areas
  induction areas with
  | nil => intro acc; rfl
  | cons area rest IH =>
    intro acc
    rw [List.foldlM_cons, List.foldlM_cons, populateLanesFold_map]
    cases hp : area.lanes.foldlM (fun (acc2 : List Course) (lane : Lane) =>
        populateLane courses l seed area lane acc2) acc with
    | none => rfl
    | some acc2 =>
      simp only [Option.map_some', Option.some_bind]
      exact IH acc2

theorem mapCourseEntries_entries (f : Entry → Option Nat) (c : Course) :
    (mapCourseEntries f c).entries = c.entries.map (updateRanking f) := rfl

theorem foldl_congr_fun {α β : Type} :
    ∀ (l : List α) (g h2 : β → α → β) (b : β),
      (∀ acc a, g acc a = h2 acc a) → l.foldl g b = l.foldl h2 b
  | [], _, _, _, _ => rfl
  | a :: t, g, h2, b, hgh => by
    rw [List.foldl_cons, List.foldl_cons, hgh]
    exact foldl_congr_fun t g h2 (h2 b a) hgh

theorem isEmpty_map {α β : Type} (g : α → β) (l : List α) :
    (l.map g).isEmpty = l.isEmpty := by
  cases l <;> rfl

theorem laneCourseStep_map (f : Entry → Option Nat) (lane : Lane)
    (area : StartArea) (flag : Bool) (seed : Nat)
    (acc : List StartListEntry × Nat × Nat) (c : Course) :
    laneCourseStep lane area flag seed acc (mapCourseEntries f c) =
      laneCourseStep lane area flag seed acc c := by
  simp only [laneCourseStep, mapCourseEntries_entries, orderCourseEntries_map,
    List.enum_map, List.map_map, List.length_map]
  have hrow : ∀ p ∈ (orderCourseEntries flag c.entries seed).enum,
      ((fun (p : Nat × Entry) => toStartListRow (mapCourseEntries f c) lane area
          p.2 (acc.2.2 + p.1) (acc.2.1 + p.1 * lane.interval)) ∘
        Prod.map id (updateRanking f)) p =
      (fun (p : Nat × Entry) => toStartListRow c lane area p.2 (acc.2.2 + p.1)
        (acc.2.1 + p.1 * lane.interval)) p := fun p _ => rfl
  rw [List.map_congr_left hrow]

theorem generateStartListForLane_map (f : Entry → Option Nat)
    (lcs : List Course) (lane : Lane) (area : StartArea) (flag : Bool)
    (seed : Nat) :
    generateStartListForLane (lcs.map (mapCourseEntries f)) lane area flag
        seed =
      generateStartListForLane lcs lane area flag seed := by
  simp only [generateStartListForLane]
  rw [stableSortBy_map (mapCourseEntries f)
    (fun (a b : Course) => decide (a.order.getD 0 ≤ b.order.getD 0))
    (fun (a b : Course) => decide (a.order.getD 0 ≤ b.order.getD 0))
    (fun a b => rfl) lcs]
  rw [List.foldl_map]
  exact congrArg Prod.fst (foldl_congr_fun _ _ _ _
    (fun acc c => laneCourseStep_map f lane area flag seed acc c))

theorem emitLanes_map (f : Entry → Option Nat) (pcs : List Course)
    (startAreas : List StartArea) (flagOf : Lane → Bool) (seed : Nat) :
    emitLanes (pcs.map (mapCourseEntries f)) startAreas flagOf seed =
      emitLanes pcs startAreas flagOf seed := by
  simp only [emitLanes]
  apply congrArg (stableSortBy
    (fun (a b : StartListEntry) => jsStringLe a.startTime b.startTime))
  apply foldl_congr_fun
  intro acc area
  apply foldl_congr_fun
  intro acc2 lane
  have hfilter : (pcs.map (mapCourseEntries f)).filter
      (fun (c : Course) => c.laneId == some lane.id &&
        c.startAreaId == some area.id) =
      (pcs.filter (fun (c : Course) => c.laneId == some lane.id &&
        c.startAreaId == some area.id)).map (mapCourseEntries f) := by
    rw [List.filter_map]
    have h2 : ∀ a ∈ pcs, ((fun (c : Course) => c.laneId == some lane.id &&
        c.startAreaId == some area.id) ∘ mapCourseEntries f) a =
        (fun (c : Course) => c.laneId == some lane.id &&
          c.startAreaId == some area.id) a := fun a _ => rfl
    rw [List.filter_congr h2]
  rw [hfilter, isEmpty_map]
  by_cases he : ((pcs.filter (fun (c : Course) => c.laneId == some lane.id &&
      c.startAreaId == some area.id)).isEmpty = true)
  · rw [if_pos he, if_pos he]
  · rw [if_neg he, if_neg he, generateStartListForLane_map]

theorem createCoursesForClass_map (f : Entry → Option Nat)
    (entries : List Entry) (seed : Nat) (cid : Nat)
    (classInfo : ClassSplitSpec) :
    createCoursesForClass (entries.map (updateRanking f)) seed cid classInfo =
      (createCoursesForClass entries seed cid classInfo).map
        (fun p => (p.1.map (mapCourseEntries f), p.2)) := by
  simp only [createCoursesForClass, filter_className_map]
  by_cases hs : ((classInfo.shouldSplit && decide (1 < classInfo.splitCount))
      = true)
  · rw [if_pos hs, if_pos hs]
    cases hsp : splitClassByRanking
        (entries.filter (fun e => e.className == classInfo.name))
        classInfo.splitCount [] seed with
    | none => simp [splitClassByRanking_map_nilRankings, hsp]
    | some groups =>
      simp only [splitClassByRanking_map_nilRankings, hsp, Option.map_some',
        List.enum_map, List.map_map, List.length_map]
      refine congrArg some ?_
      refine congrArg (fun x => (x, cid + groups.length)) ?_
      exact List.map_congr_left (fun p _ => rfl)
  · rw [if_neg hs, if_neg hs]
    rfl

theorem createCoursesFold_map (f : Entry → Option Nat) (entries : List Entry)
    (seed : Nat) :
    ∀ (classes : List ClassSplitSpec) (acc : List Course) (k : Nat),
      (classes.foldlM (fun (a : List Course × Nat) (classInfo : ClassSplitSpec) =>
        (createCoursesForClass (entries.map (updateRanking f)) seed a.2
          classInfo).map (fun p => (a.1 ++ p.1, p.2)))
        (acc.map (mapCourseEntries f), k)) =
      ((classes.foldlM (fun (a : List Course × Nat) (classInfo : ClassSplitSpec) =>
        (createCoursesForClass entries seed a.2 classInfo).map
          (fun p => (a.1 ++ p.1, p.2))) (acc, k)).map
        (fun (p : List Course × Nat) => (p.1.map (mapCourseEntries f), p.2))) := by
  intro classes
  induction classes with
  | nil => intro acc k; rfl
  | cons ci rest IH =>
    intro acc k
    simp only [List.foldlM_cons]
    rw [createCoursesForClass_map]
    cases hc : createCoursesForClass entries seed k ci with
    | none => rfl
    | some p =>
      simp only [Option.map_some', Option.some_bind]
      have hacc : (acc.map (mapCourseEntries f)) ++
          (p.1.map (mapCourseEntries f)) =
          (acc ++ p.1).map (mapCourseEntries f) := (List.map_append _ _ _).symm
      rw [hacc]
      exact IH (acc ++ p.1) p.2

theorem createCourses_map (f : Entry → Option Nat) (entries : List Entry)
    (classes : List ClassSplitSpec) (seed : Nat) :
    createCourses (entries.map (updateRanking f)) classes seed =
      (createCourses entries classes seed).map
        (List.map (mapCourseEntries f)) := by
  simp only [createCourses]
  have hfold := createCoursesFold_map f entries seed classes [] 0
  simp only [List.map_nil] at hfold
  rw [hfold, Option.map_map, Option.map_map]
  rfl

/-- C9: the generated schedule is independent of ranking data.  (i) the rank
lookup on the empty rank map that `generateStartList` and `createCourses`
hard-code (`new Map()` = `[]`) is `none` for every entry; (ii) on that empty
map `splitClassByRanking` runs entirely through the unranked
shuffle-and-balance path, so every entry is partitioned as unranked;
(iii) rewriting every entry's `ranking` field by an arbitrary function leaves
`createCourses` unchanged except for carrying the rewritten entries, and
(iv) leaves the schedule produced by `generateStartList` unchanged. -/
theorem c9_ranking_independent :
    (∀ e : Entry, lookupEntryRank e [] = none) ∧
    (∀ (l : List Entry) (n s : Nat),
      splitClassByRanking l n [] s =
        distributeBalanced (shuffleArray l s).1 (List.replicate n [])) ∧
    (∀ (f : Entry → Option Nat) (entries : List Entry)
        (classes : List ClassSplitSpec) (seed : Nat),
      createCourses (entries.map (updateRanking f)) classes seed =
        (createCourses entries classes seed).map
          (List.map (mapCourseEntries f))) ∧
    (∀ (f : Entry → Option Nat) (courses : List Course)
        (startAreas : List StartArea) (entries : List Entry)
        (constraints : Constraints) (seed : Nat),
      generateStartList courses startAreas (entries.map (updateRanking f))
          constraints seed =
        generateStartList courses startAreas entries constraints seed) := by
  refine ⟨lookupEntryRank_nil, splitClassByRanking_all_unranked,
    createCourses_map, ?_⟩
  intro f courses startAreas entries constraints seed
  simp only [generateStartList, populateAll_map]
  cases hp : populateAll courses startAreas entries seed with
  | none => rfl
  | some pcs =>
    simp only [Option.map_some']
    rw [emitLanes_map]

/-! ### Same-lane window machinery (C8): soundness and completeness of the
sorted pair scan of `checkConflicts`, over every schedule and constraints. -/

/-- The start minutes `parseTimeToMinutes(entry.startTime.substring(0, 5))`
that the same-lane scan compares. -/
def rowMinutes (e : StartListEntry) : Nat :=
  parseTimeToMinutes (e.startTime.take 5)

theorem charListLe_cons (c1 c2 : Char) (t1 t2 : List Char) :
    charListLe (c1 :: t1) (c2 :: t2) =
      (if c1.val < c2.val then true
       else if c2.val < c1.val then false
       else charListLe t1 t2) := rfl

theorem charListLe_total : ∀ (l1 l2 : List Char),
    charListLe l1 l2 = true ∨ charListLe l2 l1 = true
  | [], _ => Or.inl rfl
  | _ :: _, [] => Or.inr rfl
  | c1 :: t1, c2 :: t2 => by
    rw [charListLe_cons, charListLe_cons]
    by_cases h1 : c1.val < c2.val
    · exact Or.inl (by rw [if_pos h1])
    · by_cases h2 : c2.val < c1.val
      · exact Or.inr (by rw [if_pos h2])
      · rw [if_neg h1, if_neg h2, if_neg h2, if_neg h1]
        exact charListLe_total t1 t2

theorem jsStringLe_total (s1 s2 : String) :
    jsStringLe s1 s2 = true ∨ jsStringLe s2 s1 = true :=
  charListLe_total s1.data s2.data

theorem pairwise_orderedInsertBy {α : Type} (m : α → Nat) (le : α → α → Bool)
    (a : α) :
    ∀ (l : List α),
      (∀ x, x ∈ a :: l → ∀ y, y ∈ a :: l → le x y = true → m x ≤ m y) →
      (∀ x y, le x y = true ∨ le y x = true) →
      l.Pairwise (fun x y => m x ≤ m y) →
      (orderedInsertBy le a l).Pairwise (fun x y => m x ≤ m y)
  | [] => by
    intro _ _ _
    simp [orderedInsertBy_nil]
  | b :: t => by
    intro hmono htot hpw
    rw [orderedInsertBy_cons]
    obtain ⟨hhead, htail⟩ := List.pairwise_cons.mp hpw
    by_cases hc : le a b = true
    · rw [if_pos hc]
      refine List.pairwise_cons.mpr ⟨?_, hpw⟩
      intro y hy
      rcases List.mem_cons.mp hy with rfl | hyt
      · exact hmono a (by simp) y (by simp) hc
      · have hab : m a ≤ m b := hmono a (by simp) b (by simp) hc
        have hby : m b ≤ m y := hhead y hyt
        omega
    · rw [if_neg hc]
      have hba : le b a = true := by
        rcases htot a b with h | h
        · exact absurd h hc
        · exact h
      refine List.pairwise_cons.mpr ⟨?_, ?_⟩
      · intro y hy
        have hy2 : y = a ∨ y ∈ t := by
          have := (orderedInsertBy_perm le a t).mem_iff.mp hy
          simpa using this
        rcases hy2 with rfl | hyt
        · exact hmono b (by simp) y (by simp) hba
        · exact hhead y hyt
      · refine pairwise_orderedInsertBy m le a t ?_ htot htail
        intro x hx y hy hxy
        have hx2 : x ∈ a :: b :: t := by
          rcases List.mem_cons.mp hx with rfl | hxt
          · simp
          · simp [hxt]
        have hy2 : y ∈ a :: b :: t := by
          rcases List.mem_cons.mp hy with rfl | hyt
          · simp
          · simp [hyt]
        exact hmono x hx2 y hy2 hxy

theorem pairwise_stableSortBy {α : Type} (m : α → Nat) (le : α → α → Bool) :
    ∀ (l : List α),
      (∀ x, x ∈ l → ∀ y, y ∈ l → le x y = true → m x ≤ m y) →
      (∀ x y, le x y = true ∨ le y x = true) →
      (stableSortBy le l).Pairwise (fun x y => m x ≤ m y)
  | [] => by
    intro _ _
    simp [stableSortBy_nil]
  | a :: t => by
    intro hmono htot
    rw [stableSortBy_cons]
    have hsortmem : ∀ z, z ∈ stableSortBy le t → z ∈ t :=
      fun z hz => (stableSortBy_perm le t).mem_iff.mp hz
    refine pairwise_orderedInsertBy m le a (stableSortBy le t) ?_ htot
      (pairwise_stableSortBy m le t
        (fun x hx y hy hxy => hmono x (by simp [hx]) y (by simp [hy]) hxy) htot)
    intro x hx y hy hxy
    have hx2 : x ∈ a :: t := by
      rcases List.mem_cons.mp hx with rfl | hxt
      · simp
      · simp [hsortmem x hxt]
    have hy2 : y ∈ a :: t := by
      rcases List.mem_cons.mp hy with rfl | hyt
      · simp
      · simp [hsortmem y hyt]
    exact hmono x hx2 y hy2 hxy

/-- The `byLane` (and `byTime`) accumulation loop, generic in the key. -/
def groupFold (key : StartListEntry → String) (l : List StartListEntry)
    (acc : List (String × List StartListEntry)) :
    List (String × List StartListEntry) :=
  l.foldl (fun acc2 e => upsertGroup acc2 (key e) e) acc

theorem upsertGroup_member (acc : List (String × List StartListEntry))
    (k : String) (v x : StartListEntry) (p : String × List StartListEntry)
    (hp : p ∈ upsertGroup acc k v) (hx : x ∈ p.2) :
    (∃ q ∈ acc, x ∈ q.2) ∨ x = v := by
  simp only [upsertGroup] at hp
  by_cases hany : acc.any (fun p => p.1 == k) = true
  · rw [if_pos hany] at hp
    obtain ⟨q, hq, hfq⟩ := List.mem_map.mp hp
    by_cases hqk : (q.1 == k) = true
    · rw [if_pos hqk] at hfq
      rw [← hfq] at hx
      rcases List.mem_append.mp hx with hxq | hxv
      · exact Or.inl ⟨q, hq, hxq⟩
      · exact Or.inr (by simpa using hxv)
    · rw [if_neg hqk] at hfq
      rw [← hfq] at hx
      exact Or.inl ⟨q, hq, hx⟩
  · rw [if_neg hany] at hp
    rcases List.mem_append.mp hp with hpa | hpv
    · exact Or.inl ⟨p, hpa, hx⟩
    · have : p = (k, [v]) := by simpa using hpv
      rw [this] at hx
      exact Or.inr (by simpa using hx)

theorem upsertGroup_preserve (acc : List (String × List StartListEntry))
    (k : String) (v : StartListEntry) (p : String × List StartListEntry)
    (hp : p ∈ acc) :
    ∃ q ∈ upsertGroup acc k v, q.1 = p.1 ∧ ∀ y ∈ p.2, y ∈ q.2 := by
  simp only [upsertGroup]
  by_cases hany : acc.any (fun p => p.1 == k) = true
  · rw [if_pos hany]
    by_cases hpk : (p.1 == k) = true
    · refine ⟨(p.1, p.2 ++ [v]), ?_, rfl, fun y hy => by simp [hy]⟩
      refine List.mem_map.mpr ⟨p, hp, ?_⟩
      rw [if_pos hpk]
    · refine ⟨p, ?_, rfl, fun y hy => hy⟩
      refine List.mem_map.mpr ⟨p, hp, ?_⟩
      rw [if_neg hpk]
  · rw [if_neg hany]
    exact ⟨p, List.mem_append.mpr (Or.inl hp), rfl, fun y hy => hy⟩

theorem upsertGroup_insert (acc : List (String × List StartListEntry))
    (k : String) (v : StartListEntry) :
    ∃ q ∈ upsertGroup acc k v, q.1 = k ∧ v ∈ q.2 := by
  simp only [upsertGroup]
  by_cases hany : acc.any (fun p => p.1 == k) = true
  · rw [if_pos hany]
    obtain ⟨p, hp, hpk⟩ := List.any_eq_true.mp hany
    refine ⟨(p.1, p.2 ++ [v]), ?_, ?_, by simp⟩
    · refine List.mem_map.mpr ⟨p, hp, ?_⟩
      rw [if_pos hpk]
    · exact eq_of_beq hpk
  · rw [if_neg hany]
    exact ⟨(k, [v]), List.mem_append.mpr (Or.inr (by simp)), rfl, by simp⟩

theorem groupFold_preserve (key : StartListEntry → String) :
    ∀ (l : List StartListEntry) (acc : List (String × List StartListEntry))
      (p : String × List StartListEntry), p ∈ acc →
      ∃ q ∈ groupFold key l acc, q.1 = p.1 ∧ ∀ y ∈ p.2, y ∈ q.2
  | [], _, p, hp => ⟨p, hp, rfl, fun _ hy => hy⟩
  | e :: t, acc, p, hp => by
    obtain ⟨q, hq, hqk, hqm⟩ := upsertGroup_preserve acc (key e) e p hp
    obtain ⟨r, hr, hrk, hrm⟩ := groupFold_preserve key t (upsertGroup acc (key e) e) q hq
    exact ⟨r, hr, hrk.trans hqk, fun y hy => hrm y (hqm y hy)⟩

theorem groupFold_insert (key : StartListEntry → String) :
    ∀ (l : List StartListEntry) (acc : List (String × List StartListEntry))
      (x : StartListEntry), x ∈ l →
      ∃ q ∈ groupFold key l acc, q.1 = key x ∧ x ∈ q.2
  | e :: t, acc, x, hx => by
    rcases List.mem_cons.mp hx with rfl | hxt
    · obtain ⟨q, hq, hqk, hqm⟩ := upsertGroup_insert acc (key x) x
      obtain ⟨r, hr, hrk, hrm⟩ :=
        groupFold_preserve key t (upsertGroup acc (key x) x) q hq
      exact ⟨r, hr, hrk.trans hqk, hrm x hqm⟩
    · exact groupFold_insert key t (upsertGroup acc (key e) e) x hxt

theorem groupFold_member (key : StartListEntry → String) :
    ∀ (l : List StartListEntry) (acc : List (String × List StartListEntry))
      (p : String × List StartListEntry) (x : StartListEntry),
      p ∈ groupFold key l acc → x ∈ p.2 →
      (∃ q ∈ acc, x ∈ q.2) ∨ x ∈ l
  | [], _, p, x, hp, hx => Or.inl ⟨p, hp, hx⟩
  | e :: t, acc, p, x, hp, hx => by
    rcases groupFold_member key t (upsertGroup acc (key e) e) p x hp hx with hacc | hxt
    · obtain ⟨q, hq, hxq⟩ := hacc
      rcases upsertGroup_member acc (key e) e x q hq hxq with hacc2 | rfl
      · exact Or.inl hacc2
      · exact Or.inr (by simp)
    · exact Or.inr (by simp [hxt])

theorem upsertGroup_keys_nodup (acc : List (String × List StartListEntry))
    (k : String) (v : StartListEntry)
    (h : (acc.map Prod.fst).Nodup) :
    ((upsertGroup acc k v).map Prod.fst).Nodup := by
  simp only [upsertGroup]
  by_cases hany : acc.any (fun p => p.1 == k) = true
  · rw [if_pos hany]
    have hmap : (acc.map (fun p => if p.1 == k then (p.1, p.2 ++ [v]) else p)).map
        Prod.fst = acc.map Prod.fst := by
      rw [List.map_map]
      refine List.map_congr_left ?_
      intro p _
      by_cases hpk : (p.1 == k) = true
      · simp [Function.comp, hpk]
      · simp [Function.comp, hpk]
    rw [hmap]
    exact h
  · rw [if_neg hany]
    have hk : k ∉ acc.map Prod.fst := by
      intro hmem
      obtain ⟨p, hp, hpk⟩ := List.mem_map.mp hmem
      have hbeq : (p.1 == k) = true := by rw [hpk]; exact beq_self_eq_true k
      exact absurd (show acc.any (fun p => p.1 == k) = true from
        List.any_eq_true.mpr ⟨p, hp, hbeq⟩) hany
    simp only [List.map_append, List.map_cons, List.map_nil]
    refine List.Nodup.append h (List.nodup_singleton k) ?_
    intro a ha hb
    have hak : a = k := by simpa using hb
    rw [hak] at ha
    exact hk ha

theorem groupFold_keys_nodup (key : StartListEntry → String) :
    ∀ (l : List StartListEntry) (acc : List (String × List StartListEntry)),
      (acc.map Prod.fst).Nodup → ((groupFold key l acc).map Prod.fst).Nodup
  | [], _, h => h
  | e :: t, acc, h =>
    groupFold_keys_nodup key t (upsertGroup acc (key e) e)
      (upsertGroup_keys_nodup acc (key e) e h)

theorem eq_of_keys_nodup :
    ∀ (gs : List (String × List StartListEntry)),
      (gs.map Prod.fst).Nodup →
      ∀ p ∈ gs, ∀ q ∈ gs, p.1 = q.1 → p = q
  | [], _, p, hp, _, _, _ => absurd hp (List.not_mem_nil p)
  | g :: t, h, p, hp, q, hq, hpq => by
    have h2 : (g.1 :: t.map Prod.fst).Nodup := by simpa using h
    obtain ⟨hg, ht⟩ := List.nodup_cons.mp h2
    rcases List.mem_cons.mp hp with rfl | hpt
    · rcases List.mem_cons.mp hq with rfl | hqt
      · rfl
      · exact absurd (hpq ▸ List.mem_map.mpr ⟨q, hqt, rfl⟩) hg
    · rcases List.mem_cons.mp hq with rfl | hqt
      · exact absurd (hpq ▸ List.mem_map.mpr ⟨p, hpt, rfl⟩) hg
      · exact eq_of_keys_nodup t ht p hpt q hqt hpq

theorem groupFold_same_group (key : StartListEntry → String)
    (l : List StartListEntry) (x y : StartListEntry)
    (hx : x ∈ l) (hy : y ∈ l) (hkey : key x = key y) :
    ∃ p ∈ groupFold key l [], x ∈ p.2 ∧ y ∈ p.2 := by
  obtain ⟨p, hp, hpk, hpx⟩ := groupFold_insert key l [] x hx
  obtain ⟨q, hq, hqk, hqy⟩ := groupFold_insert key l [] y hy
  have hnd := groupFold_keys_nodup key l [] (by simp)
  have hpq : p = q := eq_of_keys_nodup _ hnd p hp q hq (by rw [hpk, hqk, hkey])
  exact ⟨p, hp, hpx, hpq ▸ hqy⟩

/-- `commonAffs` of the same-lane pair check. -/
def commonAffsOf (e1 e2 : StartListEntry) : List String :=
  (parseAffiliationsFromEntry e1).filter
    (fun a => (parseAffiliationsFromEntry e2).contains a)

/-- The duplicate-pair guard of the same-lane check. -/
def sameLanePairSeen (acc : List Conflict) (e1 e2 : StartListEntry) : Bool :=
  acc.any (fun c => c.type == ConflictType.sameLaneClub &&
    c.lane == some e1.lane && c.entries.contains e1 &&
    c.entries.contains e2)

/-- The conflict record the same-lane check pushes. -/
def sameLaneConflict (timeWindow : Nat) (e1 e2 : StartListEntry)
    (commonAffs : List String) : Conflict :=
  { type := ConflictType.sameLaneClub
    entries := [e1, e2]
    startTime := e1.startTime
    lane := some e1.lane
    startArea := some e1.startArea
    message := "同じレーン (" ++ e1.lane ++ ") で " ++
      toString timeWindow ++ "分以内に同じ所属 (" ++
      String.intercalate ", " commonAffs ++ ") の選手がいます" }

theorem sameLaneInner_nil (W : Nat) (e1 : StartListEntry) (t1 : Nat)
    (acc : List Conflict) : sameLaneInner W e1 t1 [] acc = acc := rfl

theorem sameLaneInner_cons (W : Nat) (e1 : StartListEntry) (t1 : Nat)
    (e2 : StartListEntry) (rest : List StartListEntry) (acc : List Conflict) :
    sameLaneInner W e1 t1 (e2 :: rest) acc =
      (if W < rowMinutes e2 - t1 then acc
       else sameLaneInner W e1 t1 rest
         (if commonAffsOf e1 e2 ≠ [] then
            (if sameLanePairSeen acc e1 e2 = true then acc
             else acc ++ [sameLaneConflict W e1 e2 (commonAffsOf e1 e2)])
          else acc)) := rfl

theorem sameLaneOuter_nil (W : Nat) (acc : List Conflict) :
    sameLaneOuter W [] acc = acc := rfl

theorem sameLaneOuter_cons (W : Nat) (e1 : StartListEntry)
    (rest : List StartListEntry) (acc : List Conflict) :
    sameLaneOuter W (e1 :: rest) acc =
      sameLaneOuter W rest (sameLaneInner W e1 (rowMinutes e1) rest acc) := rfl

theorem sameLaneInner_mono (W : Nat) (e1 : StartListEntry) (t1 : Nat) :
    ∀ (l : List StartListEntry) (acc : List Conflict) (c : Conflict),
      c ∈ acc → c ∈ sameLaneInner W e1 t1 l acc
  | [], _, _, hc => hc
  | e2 :: rest, acc, c, hc => by
    rw [sameLaneInner_cons]
    by_cases hbr : W < rowMinutes e2 - t1
    · rw [if_pos hbr]
      exact hc
    · rw [if_neg hbr]
      refine sameLaneInner_mono W e1 t1 rest _ c ?_
      by_cases hov : commonAffsOf e1 e2 ≠ []
      · rw [if_pos hov]
        by_cases hseen : sameLanePairSeen acc e1 e2 = true
        · rw [if_pos hseen]
          exact hc
        · rw [if_neg hseen]
          exact List.mem_append.mpr (Or.inl hc)
      · rw [if_neg hov]
        exact hc

theorem sameLaneOuter_mono (W : Nat) :
    ∀ (l : List StartListEntry) (acc : List Conflict) (c : Conflict),
      c ∈ acc → c ∈ sameLaneOuter W l acc
  | [], _, _, hc => hc
  | e1 :: rest, acc, c, hc => by
    rw [sameLaneOuter_cons]
    exact sameLaneOuter_mono W rest _ c
      (sameLaneInner_mono W e1 (rowMinutes e1) rest acc c hc)

theorem sameLaneInner_sound (W : Nat) (e1 : StartListEntry) (t1 : Nat) :
    ∀ (l : List StartListEntry) (acc : List Conflict) (c : Conflict),
      c ∈ sameLaneInner W e1 t1 l acc →
      c ∈ acc ∨ ∃ e2 ∈ l, c = sameLaneConflict W e1 e2 (commonAffsOf e1 e2) ∧
        rowMinutes e2 - t1 ≤ W
  | [], _, _, hc => Or.inl hc
  | e2 :: rest, acc, c, hc => by
    rw [sameLaneInner_cons] at hc
    by_cases hbr : W < rowMinutes e2 - t1
    · rw [if_pos hbr] at hc
      exact Or.inl hc
    · rw [if_neg hbr] at hc
      rcases sameLaneInner_sound W e1 t1 rest _ c hc with hacc | ⟨e2x, hmem, heq, hw⟩
      · by_cases hov : commonAffsOf e1 e2 ≠ []
        · rw [if_pos hov] at hacc
          by_cases hseen : sameLanePairSeen acc e1 e2 = true
          · rw [if_pos hseen] at hacc
            exact Or.inl hacc
          · rw [if_neg hseen] at hacc
            rcases List.mem_append.mp hacc with h1 | h2
            · exact Or.inl h1
            · refine Or.inr ⟨e2, by simp, by simpa using h2, by omega⟩
        · rw [if_neg hov] at hacc
          exact Or.inl hacc
      · exact Or.inr ⟨e2x, by simp [hmem], heq, hw⟩

theorem sameLaneInner_complete (W : Nat) (e1 : StartListEntry) (t1 : Nat) :
    ∀ (l : List StartListEntry) (acc : List Conflict) (e2 : StartListEntry),
      l.Pairwise (fun x y => rowMinutes x ≤ rowMinutes y) →
      e2 ∈ l → rowMinutes e2 - t1 ≤ W → commonAffsOf e1 e2 ≠ [] →
      ∃ c ∈ sameLaneInner W e1 t1 l acc,
        c.type = ConflictType.sameLaneClub ∧ e1 ∈ c.entries ∧ e2 ∈ c.entries
  | x :: rest, acc, e2, hpw, hmem, hw, hov => by
    obtain ⟨hhead, htail⟩ := List.pairwise_cons.mp hpw
    rw [sameLaneInner_cons]
    rcases List.mem_cons.mp hmem with rfl | hrest
    · rw [if_neg (by omega)]
      rw [if_pos hov]
      by_cases hseen : sameLanePairSeen acc e1 e2 = true
      · rw [if_pos hseen]
        obtain ⟨c, hcacc, hcb⟩ := List.any_eq_true.mp hseen
        simp only [Bool.and_eq_true, beq_iff_eq] at hcb
        obtain ⟨⟨⟨hty, -⟩, hc1⟩, hc2⟩ := hcb
        exact ⟨c, sameLaneInner_mono W e1 t1 rest acc c hcacc, hty,
          List.elem_iff.mp hc1, List.elem_iff.mp hc2⟩
      · rw [if_neg hseen]
        refine ⟨sameLaneConflict W e1 e2 (commonAffsOf e1 e2),
          sameLaneInner_mono W e1 t1 rest _ _ (by simp), rfl,
          by simp [sameLaneConflict], by simp [sameLaneConflict]⟩
    · have hxle : rowMinutes x ≤ rowMinutes e2 := hhead e2 hrest
      rw [if_neg (by omega)]
      exact sameLaneInner_complete W e1 t1 rest _ e2 htail hrest hw hov

theorem sameLaneOuter_sound (W : Nat) :
    ∀ (l : List StartListEntry) (acc : List Conflict) (c : Conflict),
      l.Pairwise (fun x y => rowMinutes x ≤ rowMinutes y) →
      c ∈ sameLaneOuter W l acc →
      c ∈ acc ∨ (c.type = ConflictType.sameLaneClub ∧ ∃ e1 e2,
        c.entries = [e1, e2] ∧ rowMinutes e1 ≤ rowMinutes e2 ∧
        rowMinutes e2 - rowMinutes e1 ≤ W)
  | [], _, _, _, hc => Or.inl hc
  | e1 :: rest, acc, c, hpw, hc => by
    obtain ⟨hhead, htail⟩ := List.pairwise_cons.mp hpw
    rw [sameLaneOuter_cons] at hc
    rcases sameLaneOuter_sound W rest _ c htail hc with hinner | hdone
    · rcases sameLaneInner_sound W e1 (rowMinutes e1) rest acc c hinner with
        hacc | ⟨e2, hmem, heq, hw⟩
      · exact Or.inl hacc
      · refine Or.inr ⟨by rw [heq]; rfl, e1, e2, by rw [heq]; rfl,
          hhead e2 hmem, hw⟩
    · exact Or.inr hdone

theorem sameLaneOuter_complete (W : Nat) (e1 e2 : StartListEntry) :
    ∀ (u v : List StartListEntry) (acc : List Conflict),
      e2 ∈ v →
      (u ++ e1 :: v).Pairwise (fun x y => rowMinutes x ≤ rowMinutes y) →
      rowMinutes e2 - rowMinutes e1 ≤ W →
      commonAffsOf e1 e2 ≠ [] →
      ∃ c ∈ sameLaneOuter W (u ++ e1 :: v) acc,
        c.type = ConflictType.sameLaneClub ∧ e1 ∈ c.entries ∧ e2 ∈ c.entries
  | [], v, acc, hmem, hpw, hw, hov => by
    rw [List.nil_append, sameLaneOuter_cons]
    obtain ⟨c, hc, hprops⟩ := sameLaneInner_complete W e1 (rowMinutes e1) v acc
      e2 (List.pairwise_cons.mp hpw).2 hmem hw hov
    exact ⟨c, sameLaneOuter_mono W v _ c hc, hprops⟩
  | x :: u2, v, acc, hmem, hpw, hw, hov => by
    rw [List.cons_append, sameLaneOuter_cons]
    exact sameLaneOuter_complete W e1 e2 u2 v _ hmem
      (List.pairwise_cons.mp hpw).2 hw hov

/-- One lane group's step of the same-lane fold. -/
def laneScanStep (constraints : Constraints) (acc : List Conflict)
    (p : String × List StartListEntry) : List Conflict :=
  sameLaneOuter constraints.sameLaneClubTimeWindow
    (stableSortBy (fun a b => jsStringLe a.startTime b.startTime)
      (if constraints.allowSameLaneClubDuplicates = LanePolicy.disallowSelected then
        p.2.filter (fun e => constraints.sameLaneClubSelectedCourses.contains e.className)
       else p.2)) acc

theorem sameLaneConflictsAll_eq (constraints : Constraints)
    (startList : List StartListEntry) (conflicts : List Conflict) :
    sameLaneConflictsAll constraints startList conflicts =
      (groupFold (fun e => e.startArea ++ "-" ++ e.lane) startList []).foldl
        (laneScanStep constraints) conflicts := rfl

/-- The same-time-club part of `checkConflicts` (its `conflicts` list before
the same-lane block runs). -/
def sameTimePart (rows : List StartListEntry) (constraints : Constraints) :
    List Conflict :=
  if !constraints.allowSameTimeClubDuplicates then
    (groupByKey (fun e => e.startTime) rows).foldl
      (fun acc p => acc ++ sameTimeConflictsFor constraints p.1 p.2) []
  else []

theorem checkConflicts_eq (rows : List StartListEntry)
    (constraints : Constraints)
    (h : constraints.allowSameLaneClubDuplicates ≠ LanePolicy.allow) :
    checkConflicts rows constraints =
      (groupFold (fun e => e.startArea ++ "-" ++ e.lane) rows []).foldl
        (laneScanStep constraints) (sameTimePart rows constraints) := by
  simp only [checkConflicts]
  rw [if_pos h]
  rfl

theorem sameTimeConflictsFor_type (constraints : Constraints) (time : String)
    (entries : List StartListEntry) :
    ∀ c ∈ sameTimeConflictsFor constraints time entries,
      c.type = ConflictType.sameTimeClub := by
  intro c hc
  simp only [sameTimeConflictsFor] at hc
  obtain ⟨p, hp, hpc⟩ := List.mem_filterMap.mp hc
  by_cases h1 : 1 < p.2.length
  · rw [if_pos h1] at hpc
    obtain rfl := Option.some.inj hpc
    rfl
  · rw [if_neg h1] at hpc
    exact absurd hpc (by simp)

theorem sameTimeFold_type (constraints : Constraints) :
    ∀ (gs : List (String × List StartListEntry)) (init : List Conflict),
      (∀ c ∈ init, c.type = ConflictType.sameTimeClub) →
      ∀ c ∈ gs.foldl
        (fun acc p => acc ++ sameTimeConflictsFor constraints p.1 p.2) init,
        c.type = ConflictType.sameTimeClub
  | [], _, hinit, c, hc => hinit c hc
  | p :: t, init, hinit, c, hc => by
    refine sameTimeFold_type constraints t _ ?_ c hc
    intro c2 hc2
    rcases List.mem_append.mp hc2 with h1 | h2
    · exact hinit c2 h1
    · exact sameTimeConflictsFor_type constraints p.1 p.2 c2 h2

theorem sameTimePart_type (rows : List StartListEntry)
    (constraints : Constraints) :
    ∀ c ∈ sameTimePart rows constraints,
      c.type = ConflictType.sameTimeClub := by
  intro c hc
  simp only [sameTimePart] at hc
  by_cases hd : (!constraints.allowSameTimeClubDuplicates) = true
  · rw [if_pos hd] at hc
    exact sameTimeFold_type constraints _ [] (by simp) c hc
  · rw [if_neg hd] at hc
    exact absurd hc (List.not_mem_nil c)

/-- A same-lane conflict is sound for window `W`: a pair of rows, the later
of the two at most `W` minutes after the earlier. -/
def slSound (W : Nat) (c : Conflict) : Prop :=
  c.type = ConflictType.sameLaneClub → ∃ e1 e2, c.entries = [e1, e2] ∧
    rowMinutes e1 ≤ rowMinutes e2 ∧ rowMinutes e2 - rowMinutes e1 ≤ W

theorem laneScanFold_mono (constraints : Constraints) :
    ∀ (gs : List (String × List StartListEntry)) (acc : List Conflict)
      (c : Conflict), c ∈ acc → c ∈ gs.foldl (laneScanStep constraints) acc
  | [], _, _, hc => hc
  | p :: t, acc, c, hc => by
    rw [List.foldl_cons]
    refine laneScanFold_mono constraints t _ c ?_
    simp only [laneScanStep]
    exact sameLaneOuter_mono _ _ acc c hc

theorem laneScanFold_sound (constraints : Constraints)
    (rows : List StartListEntry)
    (hmono : ∀ r1 ∈ rows, ∀ r2 ∈ rows,
      jsStringLe r1.startTime r2.startTime = true →
      rowMinutes r1 ≤ rowMinutes r2) :
    ∀ (gs : List (String × List StartListEntry)) (acc : List Conflict),
      (∀ p ∈ gs, ∀ x ∈ p.2, x ∈ rows) →
      (∀ c ∈ acc, slSound constraints.sameLaneClubTimeWindow c) →
      ∀ c ∈ gs.foldl (laneScanStep constraints) acc,
        slSound constraints.sameLaneClubTimeWindow c
  | [], _, _, hacc, c, hc => hacc c hc
  | p :: t, acc, hmem, hacc, c, hc => by
    rw [List.foldl_cons] at hc
    refine laneScanFold_sound constraints rows hmono t _
      (fun q hq x hx => hmem q (by simp [hq]) x hx) ?_ c hc
    intro c2 hc2
    simp only [laneScanStep] at hc2
    have hfsub : ∀ x ∈ (if constraints.allowSameLaneClubDuplicates =
        LanePolicy.disallowSelected then
          p.2.filter (fun e =>
            constraints.sameLaneClubSelectedCourses.contains e.className)
        else p.2), x ∈ rows := by
      intro x hx
      by_cases hsel : constraints.allowSameLaneClubDuplicates =
          LanePolicy.disallowSelected
      · rw [if_pos hsel] at hx
        exact hmem p (by simp) x (List.mem_filter.mp hx).1
      · rw [if_neg hsel] at hx
        exact hmem p (by simp) x hx
    have hpw := pairwise_stableSortBy rowMinutes
      (fun a b => jsStringLe a.startTime b.startTime) _
      (fun x hx y hy hxy => hmono x (hfsub x hx) y (hfsub y hy) hxy)
      (fun x y => jsStringLe_total x.startTime y.startTime)
    rcases sameLaneOuter_sound _ _ acc c2 hpw hc2 with h1 | ⟨hty, e1, e2, hsh⟩
    · exact hacc c2 h1
    · exact fun _ => ⟨e1, e2, hsh⟩

theorem mem_mem_split {α : Type} :
    ∀ (l : List α) (x y : α), x ∈ l → y ∈ l → x ≠ y →
      (∃ u v, l = u ++ x :: v ∧ y ∈ v) ∨ (∃ u v, l = u ++ y :: v ∧ x ∈ v)
  | [], x, _, hx, _, _ => absurd hx (List.not_mem_nil x)
  | h :: t, x, y, hx, hy, hne => by
    rcases List.mem_cons.mp hx with rfl | hxt
    · have hyt : y ∈ t := by
        rcases List.mem_cons.mp hy with rfl | hyt
        · exact absurd rfl hne
        · exact hyt
      exact Or.inl ⟨[], t, rfl, hyt⟩
    · rcases List.mem_cons.mp hy with rfl | hyt
      · exact Or.inr ⟨[], t, rfl, hxt⟩
      · rcases mem_mem_split t x y hxt hyt hne with ⟨u, v, heq, hm⟩ | ⟨u, v, heq, hm⟩
        · exact Or.inl ⟨h :: u, v, by rw [heq]; rfl, hm⟩
        · exact Or.inr ⟨h :: u, v, by rw [heq]; rfl, hm⟩

theorem pairwise_split {α : Type} (R : α → α → Prop) :
    ∀ (u : List α) (a : α) (v : List α),
      (u ++ a :: v).Pairwise R → ∀ b ∈ v, R a b
  | [], _, _, h, b, hb => (List.pairwise_cons.mp h).1 b hb
  | _ :: u2, a, v, h, b, hb =>
    pairwise_split R u2 a v (List.pairwise_cons.mp h).2 b hb

/-- C8 (amended): for every schedule whose start-time strings are ordered
consistently with their parsed minutes (true of the canonical zero-padded
`HH:MM:SS` strings `formatTime` emits) and every constraints record with the
same-lane check set to `disallow-all`, `checkConflicts` emits a same-lane
conflict containing a given pair of distinct same-lane rows with overlapping
affiliation tokens exactly when the pair's start-time difference in minutes
is at most the configured time window. -/
theorem c8_window_boundary :
    ∀ (rows : List StartListEntry) (constraints : Constraints),
      constraints.allowSameLaneClubDuplicates = LanePolicy.disallowAll →
      (∀ r1 ∈ rows, ∀ r2 ∈ rows,
        jsStringLe r1.startTime r2.startTime = true →
        rowMinutes r1 ≤ rowMinutes r2) →
      ∀ r1 ∈ rows, ∀ r2 ∈ rows, r1 ≠ r2 →
        r1.startArea = r2.startArea → r1.lane = r2.lane →
        (∃ t, t ∈ parseAffiliationsFromEntry r1 ∧
          t ∈ parseAffiliationsFromEntry r2) →
        ((∃ c ∈ checkConflicts rows constraints,
            c.type = ConflictType.sameLaneClub ∧
            r1 ∈ c.entries ∧ r2 ∈ c.entries) ↔
          Nat.dist (rowMinutes r1) (rowMinutes r2) ≤
            constraints.sameLaneClubTimeWindow) := by
  intro rows constraints hpol hmono r1 hr1 r2 hr2 hne harea hlane hov
  have hnallow : constraints.allowSameLaneClubDuplicates ≠ LanePolicy.allow := by
    rw [hpol]
    intro hfalse
    exact LanePolicy.noConfusion hfalse
  rw [checkConflicts_eq rows constraints hnallow]
  constructor
  · rintro ⟨c, hc, hty, hm1, hm2⟩
    have hsound := laneScanFold_sound constraints rows hmono
      (groupFold (fun e => e.startArea ++ "-" ++ e.lane) rows [])
      (sameTimePart rows constraints)
      (fun p hp x hx => by
        rcases groupFold_member (fun e => e.startArea ++ "-" ++ e.lane)
            rows [] p x hp hx with ⟨q, hq, -⟩ | hxl
        · exact absurd hq (List.not_mem_nil q)
        · exact hxl)
      (fun c2 hc2 htyc2 => by
        have h1 := sameTimePart_type rows constraints c2 hc2
        rw [htyc2] at h1
        exact ConflictType.noConfusion h1)
    obtain ⟨e1, e2, hent, hle, hw⟩ := hsound c hc hty
    rw [hent] at hm1 hm2
    have hm1b : r1 = e1 ∨ r1 = e2 := by simpa using hm1
    have hm2b : r2 = e1 ∨ r2 = e2 := by simpa using hm2
    rcases hm1b with rfl | rfl
    · rcases hm2b with rfl | rfl
      · exact absurd rfl hne
      · simp only [Nat.dist]
        omega
    · rcases hm2b with rfl | rfl
      · simp only [Nat.dist]
        omega
      · exact absurd rfl hne
  · intro hdist
    have hkey : r1.startArea ++ "-" ++ r1.lane = r2.startArea ++ "-" ++ r2.lane := by
      rw [harea, hlane]
    obtain ⟨p, hp, hpr1, hpr2⟩ := groupFold_same_group
      (fun e => e.startArea ++ "-" ++ e.lane) rows r1 r2 hr1 hr2 hkey
    obtain ⟨gu, gv, hgsplit⟩ := List.mem_iff_append.mp hp
    rw [hgsplit, List.foldl_append, List.foldl_cons]
    have hstep : ∀ acc, laneScanStep constraints acc p =
        sameLaneOuter constraints.sameLaneClubTimeWindow
          (stableSortBy (fun a b => jsStringLe a.startTime b.startTime) p.2)
          acc := by
      intro acc
      simp only [laneScanStep]
      rw [if_neg (by rw [hpol]; intro hfalse; exact LanePolicy.noConfusion hfalse)]
    have hmemrows : ∀ x ∈ p.2, x ∈ rows := by
      intro x hx
      rcases groupFold_member (fun e => e.startArea ++ "-" ++ e.lane)
          rows [] p x hp hx with ⟨q, hq, -⟩ | hxl
      · exact absurd hq (List.not_mem_nil q)
      · exact hxl
    have hr1s : r1 ∈ stableSortBy
        (fun a b => jsStringLe a.startTime b.startTime) p.2 :=
      ((stableSortBy_perm _ p.2).mem_iff).mpr hpr1
    have hr2s : r2 ∈ stableSortBy
        (fun a b => jsStringLe a.startTime b.startTime) p.2 :=
      ((stableSortBy_perm _ p.2).mem_iff).mpr hpr2
    have hpw := pairwise_stableSortBy rowMinutes
      (fun a b => jsStringLe a.startTime b.startTime) p.2
      (fun x hx y hy hxy => hmono x (hmemrows x hx) y (hmemrows y hy) hxy)
      (fun x y => jsStringLe_total x.startTime y.startTime)
    obtain ⟨t12, ht1, ht2⟩ := hov
    have hov12 : commonAffsOf r1 r2 ≠ [] := by
      intro hnil
      have hmemf : t12 ∈ commonAffsOf r1 r2 :=
        List.mem_filter.mpr ⟨ht1, List.elem_iff.mpr ht2⟩
      rw [hnil] at hmemf
      exact absurd hmemf (List.not_mem_nil t12)
    have hov21 : commonAffsOf r2 r1 ≠ [] := by
      intro hnil
      have hmemf : t12 ∈ commonAffsOf r2 r1 :=
        List.mem_filter.mpr ⟨ht2, List.elem_iff.mpr ht1⟩
      rw [hnil] at hmemf
      exact absurd hmemf (List.not_mem_nil t12)
    rcases mem_mem_split _ r1 r2 hr1s hr2s hne with
      ⟨u, v, hsp, hmv⟩ | ⟨u, v, hsp, hmv⟩
    · have hpwsplit := hsp ▸ hpw
      have hle := pairwise_split (fun x y => rowMinutes x ≤ rowMinutes y)
        u r1 v hpwsplit r2 hmv
      have hwin : rowMinutes r2 - rowMinutes r1 ≤
          constraints.sameLaneClubTimeWindow := by
        simp only [Nat.dist] at hdist
        omega
      obtain ⟨c, hc, hcty, hce1, hce2⟩ := sameLaneOuter_complete
        constraints.sameLaneClubTimeWindow r1 r2 u v
        (gu.foldl (laneScanStep constraints) (sameTimePart rows constraints))
        hmv hpwsplit hwin hov12
      refine ⟨c, ?_, hcty, hce1, hce2⟩
      refine laneScanFold_mono constraints gv _ c ?_
      rw [hstep, hsp]
      exact hc
    · have hpwsplit := hsp ▸ hpw
      have hle := pairwise_split (fun x y => rowMinutes x ≤ rowMinutes y)
        u r2 v hpwsplit r1 hmv
      have hwin : rowMinutes r1 - rowMinutes r2 ≤
          constraints.sameLaneClubTimeWindow := by
        simp only [Nat.dist] at hdist
        omega
      obtain ⟨c, hc, hcty, hce1, hce2⟩ := sameLaneOuter_complete
        constraints.sameLaneClubTimeWindow r2 r1 u v
        (gu.foldl (laneScanStep constraints) (sameTimePart rows constraints))
        hmv hpwsplit hwin hov21
      refine ⟨c, ?_, hcty, hce2, hce1⟩
      refine laneScanFold_mono constraints gv _ c ?_
      rw [hstep, hsp]
      exact hc

/-- A schedule row with an arbitrary raw start-time string, for the C8
counterexample. -/
def c8cxRow (nm time : String) : StartListEntry :=
  { className := "M", startNumber := 1, name1 := nm, name2 := "",
    affiliation := "clubx", startTime := time, cardNumber := "1",
    cardNote := "my card", joaNumber := "", isRental := false,
    lane := "Lane 1", startArea := "Start 1" }

/-- C8 counterexample: the claim quantifies over every schedule, but on a
schedule holding a non-zero-padded start time the same-lane sort by
`localeCompare` puts `"10:00:00"` before `"9:00:00"`, the JS window test
`time2 - time1 > timeWindow` is a comparison on a negative number there, and
`checkConflicts` flags a same-affiliation pair that is 60 minutes apart with
`timeWindow = 5` — refuting "exactly when their start-time difference in
minutes is within the configured time window" at full generality. -/
theorem c8_counterexample :
    rowMinutes (c8cxRow "a" "10:00:00") = 600 ∧
    rowMinutes (c8cxRow "b" "9:00:00") = 540 ∧
    ¬(Nat.dist 600 540 ≤ 5) ∧
    (∃ c ∈ checkConflicts [c8cxRow "a" "10:00:00", c8cxRow "b" "9:00:00"]
        (c8Constraints 5),
      c.type = ConflictType.sameLaneClub ∧
      c8cxRow "a" "10:00:00" ∈ c.entries ∧
      c8cxRow "b" "9:00:00" ∈ c.entries) := by
  decide

/-- Witness for C8 at a concrete two-row schedule with canonical start
times 3 minutes apart and window 5, discharging every hypothesis of
`c8_window_boundary`. -/
theorem c8_witness :
    ((c8Constraints 5).allowSameLaneClubDuplicates = LanePolicy.disallowAll) ∧
    (∀ r1 ∈ [c8Row "a" 600, c8Row "b" 603],
      ∀ r2 ∈ [c8Row "a" 600, c8Row "b" 603],
      jsStringLe r1.startTime r2.startTime = true →
      rowMinutes r1 ≤ rowMinutes r2) ∧
    ((∃ c ∈ checkConflicts [c8Row "a" 600, c8Row "b" 603] (c8Constraints 5),
        c.type = ConflictType.sameLaneClub ∧
        c8Row "a" 600 ∈ c.entries ∧ c8Row "b" 603 ∈ c.entries) ↔
      Nat.dist (rowMinutes (c8Row "a" 600)) (rowMinutes (c8Row "b" 603)) ≤
        (c8Constraints 5).sameLaneClubTimeWindow) :=
  ⟨rfl, by decide,
    c8_window_boundary [c8Row "a" 600, c8Row "b" 603] (c8Constraints 5) rfl
      (by decide) (c8Row "a" 600) (by decide) (c8Row "b" 603) (by decide)
      (by decide) rfl rfl ⟨"clubx", by decide, by decide⟩⟩
